import Mathlib

set_option maxHeartbeats 1000000

/-!
Verification of the C++ semantic-model core of the `ritual` repository
(`src/cpp_data.rs`, `src/cpp_parser.rs`): a shallow embedding of the type
model, the entity store, the semantic post-processor passes and the pure
parts of the type resolver, together with theorems about the invariants
and functional properties of those operations.

The enum/struct declarations themselves live in modules that are not part
of the analysed sources (`cpp_type.rs`, `cpp_method.rs`, `cpp_operator.rs`,
`serializable.rs`); they are reconstructed here from spec section 3 and
from how the analysed code uses them.  Functions of `cpp_data.rs` and
`cpp_parser.rs` are translated directly from the source.
-/

namespace Ritual

/-- Indirection levels of a C++ type (spec 3.1; enum from the missing
`cpp_type.rs`). -/
inductive CppTypeIndirection where
  | none | ptr | ref | ptrPtr | ptrRef
deriving DecidableEq, Repr

/-- Rust `Debug`-style rendering of `CppTypeIndirection`, used inside the
"Unsupported level of indirection" error messages of the parser. -/
def CppTypeIndirection.debugStr : CppTypeIndirection → String
  | .none => "None"
  | .ptr => "Ptr"
  | .ref => "Ref"
  | .ptrPtr => "PtrPtr"
  | .ptrRef => "PtrRef"

/-- Built-in numeric type kinds (spec 3.1). -/
inductive CppBuiltInNumericType where
  | bool | char | sChar | uChar | wChar | char16 | char32
  | short | uShort | int | uInt | long | uLong | longLong | uLongLong
  | int128 | uInt128 | float | double | longDouble
deriving DecidableEq, Repr

/-- Modelled from the spec: `CppBuiltInNumericType::to_cpp_code` of the missing
`cpp_type.rs` — "the same spelling the numeric kind would emit" (spec 4.3.2
step 8). -/
def CppBuiltInNumericType.to_cpp_code : CppBuiltInNumericType → String
  | .bool => "bool"
  | .char => "char"
  | .sChar => "signed char"
  | .uChar => "unsigned char"
  | .wChar => "wchar_t"
  | .char16 => "char16_t"
  | .char32 => "char32_t"
  | .short => "short"
  | .uShort => "unsigned short"
  | .int => "int"
  | .uInt => "unsigned int"
  | .long => "long"
  | .uLong => "unsigned long"
  | .longLong => "long long"
  | .uLongLong => "unsigned long long"
  | .int128 => "__int128_t"
  | .uInt128 => "__uint128_t"
  | .float => "float"
  | .double => "double"
  | .longDouble => "long double"

/-- Modelled from the spec: `CppBuiltInNumericType::all()` of the missing
`cpp_type.rs` — the list of all built-in numeric kinds. -/
def CppBuiltInNumericType.all : List CppBuiltInNumericType :=
  [.bool, .char, .sChar, .uChar, .wChar, .char16, .char32,
   .short, .uShort, .int, .uInt, .long, .uLong, .longLong, .uLongLong,
   .int128, .uInt128, .float, .double, .longDouble]

mutual

/-- The base of a C++ type (spec 3.1; `CppTypeBase` of the missing
`cpp_type.rs`).  `cls` is the source's `Class` variant (`class` is a Lean
keyword). -/
inductive CppTypeBase where
  | void
  | builtInNumeric (k : CppBuiltInNumericType)
  | specificNumeric (name : String) (bits : Nat) (is_signed : Bool)
  | pointerSizedInteger (name : String) (is_signed : Bool)
  | enum (name : String)
  | cls (name : String) (template_arguments : Option (List CppType))
  | functionPointer (return_type : CppType) (arguments : List CppType)
      (allows_variadic_arguments : Bool)
  | templateParameter (nested_level : Nat) (index : Nat)

/-- A C++ type: `(is_const, indirection, base)` (spec 3.1). -/
inductive CppType where
  | mk (is_const : Bool) (indirection : CppTypeIndirection) (base : CppTypeBase)

end

def CppType.is_const : CppType → Bool
  | .mk c _ _ => c

def CppType.indirection : CppType → CppTypeIndirection
  | .mk _ i _ => i

def CppType.base : CppType → CppTypeBase
  | .mk _ _ b => b

mutual

/-- Structural equality test on type bases (the derived `PartialEq` of the
missing `cpp_type.rs`; spec 3.1: "Type identity is structural"). -/
def CppTypeBase.beq : CppTypeBase → CppTypeBase → Bool
  | .void, .void => true
  | .builtInNumeric k1, .builtInNumeric k2 => k1 == k2
  | .specificNumeric n1 b1 s1, .specificNumeric n2 b2 s2 => n1 == n2 && b1 == b2 && s1 == s2
  | .pointerSizedInteger n1 s1, .pointerSizedInteger n2 s2 => n1 == n2 && s1 == s2
  | .enum n1, .enum n2 => n1 == n2
  | .cls n1 t1, .cls n2 t2 => n1 == n2 && CppType.beqOptList t1 t2
  | .functionPointer r1 a1 v1, .functionPointer r2 a2 v2 =>
      CppType.beq r1 r2 && CppType.beqList a1 a2 && v1 == v2
  | .templateParameter l1 i1, .templateParameter l2 i2 => l1 == l2 && i1 == i2
  | _, _ => false
termination_by structural x => x

/-- Structural equality test on types. -/
def CppType.beq : CppType → CppType → Bool
  | .mk c1 i1 b1, .mk c2 i2 b2 => c1 == c2 && i1 == i2 && CppTypeBase.beq b1 b2
termination_by structural x => x

/-- Structural equality test on type lists. -/
def CppType.beqList : List CppType → List CppType → Bool
  | [], [] => true
  | x :: xs, y :: ys => CppType.beq x y && CppType.beqList xs ys
  | _, _ => false
termination_by structural x => x

/-- Structural equality test on optional type lists. -/
def CppType.beqOptList : Option (List CppType) → Option (List CppType) → Bool
  | Option.none, Option.none => true
  | some xs, some ys => CppType.beqList xs ys
  | _, _ => false
termination_by structural x => x

end

mutual

theorem CppTypeBase.beqBase_iff : ∀ a b : CppTypeBase, CppTypeBase.beq a b = true ↔ a = b
  | .void, b => by cases b <;> simp [CppTypeBase.beq]
  | .builtInNumeric k1, b => by cases b <;> simp [CppTypeBase.beq]
  | .specificNumeric n1 b1 s1, b => by cases b <;> simp [CppTypeBase.beq, and_assoc]
  | .pointerSizedInteger n1 s1, b => by cases b <;> simp [CppTypeBase.beq, and_assoc]
  | .enum n1, b => by cases b <;> simp [CppTypeBase.beq]
  | .cls n1 t1, b => by
      cases b <;> simp [CppTypeBase.beq]
      case cls n2 t2 =>
        rw [CppType.beqOptList_iff t1 t2]
        exact fun _ => Iff.rfl
  | .functionPointer r1 a1 v1, b => by
      cases b <;> simp [CppTypeBase.beq, and_assoc]
      case functionPointer r2 a2 v2 =>
        rw [CppType.beq_iff r1 r2, CppType.beqList_iff a1 a2]
  | .templateParameter l1 i1, b => by cases b <;> simp [CppTypeBase.beq, and_assoc]

theorem CppType.beq_iff : ∀ a b : CppType, CppType.beq a b = true ↔ a = b
  | .mk c1 i1 b1, .mk c2 i2 b2 => by
      simp [CppType.beq, and_assoc]
      rw [CppTypeBase.beqBase_iff b1 b2]
      exact fun _ _ => Iff.rfl

theorem CppType.beqList_iff : ∀ a b : List CppType, CppType.beqList a b = true ↔ a = b
  | [], [] => by simp [CppType.beqList]
  | x :: xs, y :: ys => by
      simp [CppType.beqList]
      rw [CppType.beq_iff x y, CppType.beqList_iff xs ys]
  | [], _ :: _ => by simp [CppType.beqList]
  | _ :: _, [] => by simp [CppType.beqList]

theorem CppType.beqOptList_iff :
    ∀ a b : Option (List CppType), CppType.beqOptList a b = true ↔ a = b
  | Option.none, Option.none => by simp [CppType.beqOptList]
  | some xs, some ys => by
      simp [CppType.beqOptList]
      rw [CppType.beqList_iff xs ys]
  | Option.none, some _ => by simp [CppType.beqOptList]
  | some _, Option.none => by simp [CppType.beqOptList]

end

instance : DecidableEq CppType := fun a b => decidable_of_iff _ (CppType.beq_iff a b)

instance : DecidableEq CppTypeBase := fun a b => decidable_of_iff _ (CppTypeBase.beqBase_iff a b)

instance {e a : Type} [DecidableEq e] [DecidableEq a] : DecidableEq (Except e a) := fun x y =>
  match x, y with
  | Except.ok u, Except.ok v =>
      if h : u = v then isTrue (by rw [h]) else isFalse (by intro hc; cases hc; exact h rfl)
  | Except.error u, Except.error v =>
      if h : u = v then isTrue (by rw [h]) else isFalse (by intro hc; cases hc; exact h rfl)
  | Except.ok _, Except.error _ => isFalse (by intro hc; cases hc)
  | Except.error _, Except.ok _ => isFalse (by intro hc; cases hc)

/-- Modelled from the spec: `CppType::void()` of the missing `cpp_type.rs`
(spec 4.5 step 1: "void return" of the synthesized destructor). -/
def CppType.void : CppType := CppType.mk false CppTypeIndirection.none CppTypeBase.void

/-- Modelled from the spec: `is_template_parameter` of the missing
`cpp_type.rs` (spec 4.1). -/
def CppTypeBase.is_template_parameter : CppTypeBase → Bool
  | .templateParameter _ _ => true
  | _ => false

/-- Modelled from the spec: `maybe_name` of the missing `cpp_type.rs`:
the qualified name carried by a name-bearing base, if any.  In the analysed
code it is only ever applied to `Class` bases. -/
def CppTypeBase.maybe_name : CppTypeBase → Option String
  | .enum n => some n
  | .cls n _ => some n
  | .specificNumeric n _ _ => some n
  | .pointerSizedInteger n _ => some n
  | _ => Option.none

end Ritual

namespace Ritual

/-- Origin location of a parsed entity (spec 3.2; missing `serializable.rs`). -/
structure CppOriginLocation where
  include_file_path : String
  line : Nat
  column : Nat
deriving DecidableEq, Repr

/-- Visibility of a C++ member (spec 3.2; the source names are
`Public`/`Protected`/`Private`, shortened because of Lean keywords). -/
inductive CppVisibility where
  | pub | prot | priv
deriving DecidableEq, Repr

/-- Kind of a method (spec 3.2: `Regular`, `Constructor`, `Destructor`). -/
inductive CppMethodKind where
  | constructor | destructor | regular
deriving DecidableEq, Repr

/-- Modelled from the spec: `CppMethodKind::is_constructor` of the missing
`cpp_method.rs`. -/
def CppMethodKind.is_constructor : CppMethodKind → Bool
  | .constructor => true
  | _ => false

/-- Modelled from the spec: `CppMethodKind::is_destructor` of the missing
`cpp_method.rs`. -/
def CppMethodKind.is_destructor : CppMethodKind → Bool
  | .destructor => true
  | _ => false

/-- Modelled from the spec: the recognized-operator sum of the missing
`cpp_operator.rs`.  The analysed code of `cpp_data.rs` only compares against
the `Assignment` variant; the remaining named operators are collapsed into
`other`, and conversion operators carry their target type (spec 4.4). -/
inductive CppOperator where
  | assignment
  | conversion (to_type : CppType)
  | other (name : String)
deriving DecidableEq

/-- Class membership of a method (spec 3.2; missing `cpp_method.rs`).
The source field holding the owning class type is `class_type`. -/
structure CppMethodClassMembership where
  class_type : CppTypeBase
  kind : CppMethodKind
  is_virtual : Bool
  is_pure_virtual : Bool
  is_const : Bool
  is_static : Bool
  visibility : CppVisibility
  is_signal : Bool
deriving DecidableEq

/-- A function argument (spec 3.2; missing `cpp_method.rs`). -/
structure CppFunctionArgument where
  name : String
  argument_type : CppType
  has_default_value : Bool
deriving DecidableEq

/-- A callable entity (spec 3.2; `CppMethod` of the missing `cpp_method.rs`). -/
structure CppMethod where
  name : String
  class_membership : Option CppMethodClassMembership
  operator : Option CppOperator
  return_type : CppType
  arguments : List CppFunctionArgument
  allows_variadic_arguments : Bool
  include_file : String
  origin_location : Option CppOriginLocation
  template_arguments : Option (List String)
deriving DecidableEq

/-- Modelled from the spec: `CppMethod::is_destructor` of the missing
`cpp_method.rs` — the method is a member and its kind is `Destructor`. -/
def CppMethod.is_destructor (m : CppMethod) : Bool :=
  match m.class_membership with
  | some cm => cm.kind.is_destructor
  | Option.none => false

/-- Modelled from the spec: `CppMethod::class_name` of the missing
`cpp_method.rs` — the qualified name of the owning class, if the method is a
member. -/
def CppMethod.class_name (m : CppMethod) : Option String :=
  match m.class_membership with
  | some cm => cm.class_type.maybe_name
  | Option.none => Option.none

/-- One enum constant (spec 3.2; missing `serializable.rs`). -/
structure EnumValue where
  name : String
  value : Int
deriving DecidableEq, Repr

/-- One class field (spec 3.2; missing `serializable.rs`). -/
structure CppClassField where
  name : String
  field_type : CppType
  visibility : CppVisibility
deriving DecidableEq

/-- Kind payload of a type declaration (spec 3.2; `cls` is the source's
`Class` variant). -/
inductive CppTypeKind where
  | enum (values : List EnumValue)
  | cls (size : Option Int) (bases : List CppType) (fields : List CppClassField)
      (template_arguments : Option (List String))
deriving DecidableEq

/-- A type declaration (spec 3.2; `CppTypeData` of the missing
`serializable.rs`). -/
structure CppTypeData where
  name : String
  include_file : String
  origin_location : CppOriginLocation
  kind : CppTypeKind
deriving DecidableEq

/-- The output bundle (spec 6.3).  The source's
`template_instantiations: HashMap<String, Vec<Vec<CppType>>>` is modelled as
an association list with unique keys in insertion order. -/
structure CppData where
  types : List CppTypeData
  methods : List CppMethod
  template_instantiations : List (String × List (List CppType))
deriving DecidableEq

/-- `CppData::default()`: the empty bundle. -/
def CppData.empty : CppData := ⟨[], [], []⟩

/-- `CppTypeData::is_class` (cpp_data.rs:13). -/
def CppTypeData.is_class (t : CppTypeData) : Bool :=
  match t.kind with
  | CppTypeKind.cls _ _ _ _ => true
  | _ => false

/-- `CppTypeData::default_template_parameters` (cpp_data.rs:32): for a class
template, the identity sequence `TemplateParameter { nested_level: 0, index: i }`
over its declared parameter names. -/
def CppTypeData.default_template_parameters (t : CppTypeData) : Option (List CppType) :=
  match t.kind with
  | CppTypeKind.cls _ _ _ (some strings) =>
      some ((List.range strings.length).map fun num =>
        CppType.mk false CppTypeIndirection.none (CppTypeBase.templateParameter 0 num))
  | _ => Option.none

/-- `CppTypeData::default_class_type` (cpp_data.rs:20).  The source panics
("not a class") on a non-class kind; that branch is unreachable at every call
site and is mapped to `CppTypeBase.void` here. -/
def CppTypeData.default_class_type (t : CppTypeData) : CppTypeBase :=
  match t.kind with
  | CppTypeKind.cls _ _ _ _ => CppTypeBase.cls t.name t.default_template_parameters
  | _ => CppTypeBase.void

/-- `CppTypeData::inherits` (cpp_data.rs:60): the type directly derives from
the named class (some base is a `Class` base with that name). -/
def CppTypeData.inherits (t : CppTypeData) (class_name : String) : Bool :=
  match t.kind with
  | CppTypeKind.cls _ bases _ _ =>
      bases.any fun base =>
        match base.base with
        | CppTypeBase.cls name _ => name == class_name
        | _ => false
  | _ => false

/-- `CppData::has_virtual_destructor` (cpp_data.rs:260), with explicit
recursion fuel.  The source recursion terminates exactly when the lookup
chain through base-class names does not cycle; on such inputs every chain
visits pairwise distinct names present in `types`, so `types.length + 1`
units of fuel (as supplied by `CppData.has_virtual_destructor`) reproduce the
source behaviour, while on a cyclic input the source diverges and the fuel
runs out. -/
def hasVirtualDestructorGo (types : List CppTypeData) (methods : List CppMethod) :
    Nat → String → Bool
  | 0, _ => false
  | fuel + 1, class_name =>
    match methods.find? (fun m => m.is_destructor && m.class_name == some class_name) with
    | some m =>
      match m.class_membership with
      | some cm => cm.is_virtual
      | Option.none => false
    | Option.none =>
      match types.find? (fun t => t.name == class_name) with
      | some ti =>
        match ti.kind with
        | CppTypeKind.cls _ bases _ _ =>
            bases.any fun base =>
              match base.base with
              | CppTypeBase.cls name _ => hasVirtualDestructorGo types methods fuel name
              | _ => false
        | _ => false
      | Option.none => false

/-- `CppData::has_virtual_destructor` at its natural fuel. -/
def CppData.has_virtual_destructor (d : CppData) (class_name : String) : Bool :=
  hasVirtualDestructorGo d.types d.methods (d.types.length + 1) class_name

/-- The destructor synthesized by `ensure_explicit_destructors`
(cpp_data.rs:91-110) for class `t`, given the store contents at the moment of
synthesis. -/
def synthesizedDestructor (types : List CppTypeData) (methods : List CppMethod)
    (t : CppTypeData) : CppMethod :=
  { name := "~" ++ t.name
    class_membership := some
      { class_type := t.default_class_type
        is_virtual := hasVirtualDestructorGo types methods (types.length + 1) t.name
        is_pure_virtual := false
        is_const := false
        is_static := false
        visibility := CppVisibility.pub
        is_signal := false
        kind := CppMethodKind.destructor }
    operator := Option.none
    return_type := CppType.void
    arguments := []
    allows_variadic_arguments := false
    include_file := t.include_file
    origin_location := Option.none
    template_arguments := Option.none }

/-- `CppData::ensure_explicit_destructors` (cpp_data.rs:78): for each class in
declaration order, if no destructor bound to it is present in the (growing)
method list, push a synthesized one. -/
def CppData.ensure_explicit_destructors (d : CppData) : CppData :=
  { d with methods := d.types.foldl (fun methods t =>
      match t.kind with
      | CppTypeKind.cls _ _ _ _ =>
        if methods.any (fun m => m.is_destructor && m.class_name == some t.name) then methods
        else methods ++ [synthesizedDestructor d.types methods t]
      | _ => methods) d.methods }

end Ritual

namespace Ritual

/-- The successive clones produced by the `while` loop of
`generate_methods_with_omitted_args` (cpp_data.rs:198-204): pop trailing
defaulted arguments one at a time, emitting a clone after each pop.  The
loop pops one argument per iteration, so the argument count bounds the
iteration count and serves as structural recursion fuel. -/
def omittedClonesGo : Nat → CppMethod → List CppMethod
  | 0, _ => []
  | fuel + 1, m =>
    match m.arguments.getLast? with
    | some a =>
      if a.has_default_value then
        let m' : CppMethod := { m with arguments := m.arguments.dropLast }
        m' :: omittedClonesGo fuel m'
      else []
    | Option.none => []

/-- The clones of one method, at the loop's natural fuel. -/
def CppMethod.omittedClones (m : CppMethod) : List CppMethod :=
  omittedClonesGo m.arguments.length m

/-- `CppData::generate_methods_with_omitted_args` (cpp_data.rs:194).  The
source guards the `while` loop with `arguments.len() > 0 &&
last.has_default_value`, which is exactly the first iteration condition of
the loop, so the appended clones per method are `omittedClones`. -/
def CppData.generate_methods_with_omitted_args (d : CppData) : CppData :=
  { d with methods := d.methods ++ d.methods.flatMap (fun m => m.omittedClones) }

/-- The filter selecting inheritable base-class methods inside
`add_inherited_methods_from` (cpp_data.rs:130-140): bound to the named base
class and neither constructor, destructor nor assignment operator.  The
source unwraps `maybe_name()` (a panic on a non-class owning type, which
never occurs); the panic is mapped to a non-match here. -/
def isInheritableFrom (base_name : String) (m : CppMethod) : Bool :=
  match m.class_membership with
  | some info =>
      info.class_type.maybe_name == some base_name && !info.kind.is_constructor &&
      !info.kind.is_destructor && m.operator != some CppOperator.assignment
  | Option.none => false

/-- The clone pushed by `add_inherited_methods_from` (cpp_data.rs:159-166):
owning class type rebound to the derived class's default class type,
include file taken from the derived class, origin cleared.  The source
panics when `class_membership` is absent; the filter guarantees presence. -/
def inheritClone (t : CppTypeData) (m : CppMethod) : CppMethod :=
  { m with
    class_membership := m.class_membership.map
      (fun info => { info with class_type := t.default_class_type })
    include_file := t.include_file
    origin_location := Option.none }

/-- The non-recursive part of `CppData::add_inherited_methods_from`
(cpp_data.rs:124-173): collect the inheritable methods of `base_name`,
clone them onto every directly derived class that has no method of the same
name, append the clones, and return the list of derived class names on
which the source then recurses. -/
def CppData.add_inherited_methods_from_step (d : CppData) (base_name : String) :
    CppData × List String :=
  let base_methods := d.methods.filter (isInheritableFrom base_name)
  let derived := d.types.filter (fun t => t.inherits base_name)
  let new_methods := derived.flatMap (fun t =>
    (base_methods.filter (fun bm => !d.methods.any (fun m =>
        m.class_name == some t.name && m.name == bm.name))).map (inheritClone t))
  ({ d with methods := d.methods ++ new_methods }, derived.map (fun t => t.name))

/-- `CppData::add_inherited_methods_from` (cpp_data.rs:124-177) with explicit
recursion fuel; `Option.none` stands for a run that has not finished within
the given fuel (the source recursion carries no visited set and diverges on
a cyclic direct-derivation relation). -/
def addInheritedMethodsFromFuel : Nat → CppData → String → Option CppData
  | 0, _, _ => Option.none
  | fuel + 1, d, base_name =>
    let p := d.add_inherited_methods_from_step base_name
    p.2.foldlM (fun acc name => addInheritedMethodsFromFuel fuel acc name) p.1

/-- `CppData::add_inherited_methods` (cpp_data.rs:183): run
`add_inherited_methods_from` on every initially present type name, in
order. -/
def CppData.add_inherited_methods (fuel : Nat) (d : CppData) : Option CppData :=
  (d.types.map (fun t => t.name)).foldlM
    (fun acc name => addInheritedMethodsFromFuel fuel acc name) d

/-- `CppData::post_process` (cpp_data.rs:280): destructors, omitted-argument
clones, inherited methods, in that order. -/
def CppData.post_process (fuel : Nat) (d : CppData) : Option CppData :=
  CppData.add_inherited_methods fuel
    (CppData.generate_methods_with_omitted_args
      (CppData.ensure_explicit_destructors d))

/-- Association-list update: make sure the key is present (HashMap
`contains_key` / `insert` of an empty `CppData` in cpp_data.rs:213-215 and
219-221). -/
def ensureKey (l : List (String × CppData)) (k : String) : List (String × CppData) :=
  if l.any (fun p => p.1 == k) then l else l ++ [(k, CppData.empty)]

/-- Association-list update of the value at a present key (HashMap
`get_mut` in `split_by_headers`). -/
def mapUpdate (l : List (String × CppData)) (k : String) (f : CppData → CppData) :
    List (String × CppData) :=
  l.map (fun p => if p.1 == k then (p.1, f p.2) else p)

/-- Lookup in the `template_instantiations` association list (HashMap
`get`). -/
def tiLookup (l : List (String × List (List CppType))) (k : String) :
    Option (List (List CppType)) :=
  (l.find? (fun p => p.1 == k)).map (fun p => p.2)

/-- HashMap `insert` on a partition's `template_instantiations`
(cpp_data.rs:225-228): overwrite the value when the key is present, append
otherwise. -/
def tiInsertEntry (k : String) (v : List (List CppType))
    (l : List (String × List (List CppType))) : List (String × List (List CppType)) :=
  if l.any (fun p => p.1 == k) then l.map (fun p => if p.1 == k then (p.1, v) else p)
  else l ++ [(k, v)]

/-- `CppData::split_by_headers` (cpp_data.rs:210): distribute methods, then
types (copying a class's template instantiations alongside it), into
per-include-file partitions. -/
def CppData.split_by_headers (d : CppData) : List (String × CppData) :=
  let r1 := d.methods.foldl (fun r m =>
    mapUpdate (ensureKey r m.include_file) m.include_file
      (fun c => { c with methods := c.methods ++ [m] })) []
  d.types.foldl (fun r t =>
    let r2 := mapUpdate (ensureKey r t.include_file) t.include_file
      (fun c => { c with types := c.types ++ [t] })
    match t.kind with
    | CppTypeKind.cls _ _ _ _ =>
      match tiLookup d.template_instantiations t.name with
      | some ins => mapUpdate r2 t.include_file
          (fun c =>
            { c with
              template_instantiations := tiInsertEntry t.name ins c.template_instantiations })
      | Option.none => r2
    | _ => r2) r1

end Ritual

namespace Ritual

mutual

/-- `CppParser::check_type_integrity` (cpp_parser.rs:1097): every `Class` or
`Enum` name referenced by the type — recursively through template arguments
and function-pointer signatures — must resolve in the type list. -/
def check_type_integrity (types : List CppTypeData) : CppType → Except String Unit
  | CppType.mk _ _ CppTypeBase.void => Except.ok ()
  | CppType.mk _ _ (CppTypeBase.builtInNumeric _) => Except.ok ()
  | CppType.mk _ _ (CppTypeBase.specificNumeric _ _ _) => Except.ok ()
  | CppType.mk _ _ (CppTypeBase.pointerSizedInteger _ _) => Except.ok ()
  | CppType.mk _ _ (CppTypeBase.enum name) =>
      if (types.find? (fun x => x.name == name)).isNone then
        Except.error ("unknown type: " ++ name)
      else Except.ok ()
  | CppType.mk _ _ (CppTypeBase.cls name template_arguments) =>
      if (types.find? (fun x => x.name == name)).isNone then
        Except.error ("unknown type: " ++ name)
      else
        match template_arguments with
        | some args => checkTypeIntegrityList types args
        | Option.none => Except.ok ()
  | CppType.mk _ _ (CppTypeBase.functionPointer return_type arguments _) =>
      match check_type_integrity types return_type with
      | Except.error msg => Except.error msg
      | Except.ok () => checkTypeIntegrityList types arguments
  | CppType.mk _ _ (CppTypeBase.templateParameter _ _) => Except.ok ()
termination_by structural x => x

/-- The `for arg in args { ... return Err(msg) ... }` loops of
`check_type_integrity`: first failure wins. -/
def checkTypeIntegrityList (types : List CppTypeData) : List CppType → Except String Unit
  | [] => Except.ok ()
  | x :: xs =>
      match check_type_integrity types x with
      | Except.error msg => Except.error msg
      | Except.ok () => checkTypeIntegrityList types xs
termination_by structural x => x

end

/-- `CppParser::check_integrity` (cpp_parser.rs:1135): keep only the methods
whose return type and argument types all pass `check_type_integrity`.  (The
source additionally logs — without dropping anything — classes whose base
types fail the check; logging is not modelled.) -/
def check_integrity (types : List CppTypeData) (methods : List CppMethod) : List CppMethod :=
  methods.filter fun m =>
    (match check_type_integrity types m.return_type with
     | Except.ok () => true
     | Except.error _ => false) &&
    m.arguments.all fun arg =>
      match check_type_integrity types arg.argument_type with
      | Except.ok () => true
      | Except.error _ => false

/-- The map carried by `find_template_instantiations`: class name to the
recorded argument tuples, as an insertion-ordered association list. -/
abbrev TIMap : Type := List (String × List (List CppType))

/-- The `contains_key`/`insert(Vec::new())` step of `check_type`
(cpp_parser.rs:1173-1175): create the key if absent. -/
def tiEnsureKey (name : String) (result : TIMap) : TIMap :=
  if result.any (fun p => p.1 == name) then result else result ++ [(name, [])]

/-- The body of `check_type` (cpp_parser.rs:1172-1178) that records one
instantiation: create the key if absent, then append the tuple unless an
equal tuple is already recorded. -/
def tiRecord (name : String) (template_arguments : List CppType) (result : TIMap) : TIMap :=
  if ((tiLookup (tiEnsureKey name result) name).getD []).any (fun x => x == template_arguments)
  then tiEnsureKey name result
  else (tiEnsureKey name result).map
    (fun p => if p.1 == name then (p.1, p.2 ++ [template_arguments]) else p)

mutual

/-- The local `check_type` of `find_template_instantiations`
(cpp_parser.rs:1169): record `Class` types whose template-argument tuple has
at least one non-`TemplateParameter` member, then descend into the tuple. -/
def checkTypeTI : CppType → TIMap → TIMap
  | CppType.mk _ _ (CppTypeBase.cls name (some template_arguments)), result =>
      if template_arguments.any (fun x => !x.base.is_template_parameter) then
        checkTypeTIList template_arguments (tiRecord name template_arguments result)
      else result
  | _, result => result
termination_by structural x => x

/-- The `for arg in template_arguments { check_type(arg, result) }` loop. -/
def checkTypeTIList : List CppType → TIMap → TIMap
  | [], result => result
  | x :: xs, result => checkTypeTIList xs (checkTypeTI x result)
termination_by structural x => x

end

/-- The validation loop of `find_template_instantiations`
(cpp_parser.rs:1205-1233): every recorded class name must be a declared
class template and every recorded tuple must have as many arguments as the
template has parameters; any violation panics in the source. -/
def validTI (types : List CppTypeData) (result : TIMap) : Bool :=
  result.all fun p =>
    match types.find? (fun x => x.name == p.1) with
    | some type_info =>
      match type_info.kind with
      | CppTypeKind.cls _ _ _ (some template_arguments) =>
          p.2.all (fun ins => ins.length == template_arguments.length)
      | _ => false
    | Option.none => false

/-- The collection phase of `find_template_instantiations`
(cpp_parser.rs:1186-1199): walk every method return type, method argument
type and class base type. -/
def tiCollect (types : List CppTypeData) (methods : List CppMethod) : TIMap :=
  types.foldl (fun acc t =>
    match t.kind with
    | CppTypeKind.cls _ bases _ _ => bases.foldl (fun a b => checkTypeTI b a) acc
    | _ => acc)
    (methods.foldl (fun acc m =>
      m.arguments.foldl (fun acc2 arg => checkTypeTI arg.argument_type acc2)
        (checkTypeTI m.return_type acc)) [])

/-- `CppParser::find_template_instantiations` (cpp_parser.rs:1165): the
collection phase followed by the validation loop; `Option.none` models the
source's panic on a recorded name that is not a declared class template or
on an arity mismatch. -/
def find_template_instantiations (types : List CppTypeData) (methods : List CppMethod) :
    Option TIMap :=
  if validTI types (tiCollect types methods) then some (tiCollect types methods)
  else Option.none

end Ritual

namespace Ritual

/-- Rust `str::starts_with`, on the character list of the string. -/
def strStartsWith (s p : String) : Bool := s.data.take p.data.length == p.data

/-- Rust `&name[n..]` for a character-aligned byte index: drop the first `n`
characters. -/
def strDrop (s : String) (n : Nat) : String := String.mk (s.data.drop n)

/-- Rust `str::ends_with`. -/
def strEndsWith (s p : String) : Bool := s.data.reverse.take p.data.length == p.data.reverse

/-- Rust `&name[0..len - n]`: drop the last `n` characters. -/
def strDropRight (s : String) (n : Nat) : String :=
  String.mk (s.data.take (s.data.length - n))

/-- Rust `str::trim`. -/
def strTrim (s : String) : String :=
  String.mk (((s.data.dropWhile Char.isWhitespace).reverse.dropWhile Char.isWhitespace).reverse)

/-- Rust `str::split(",")` on the character list: the comma-separated pieces,
with empty pieces preserved. -/
def splitOnCommas : List Char → List (List Char)
  | [] => [[]]
  | c :: rest =>
    let r := splitOnCommas rest
    if c == ',' then [] :: r
    else
      match r with
      | h :: t => (c :: h) :: t
      | [] => [[c]]

/-- A `\w`-or-colon character, the class `[\w:]` of the template-class
pattern (ASCII range, which covers C++ identifiers). -/
def isWordColonChar (c : Char) : Bool := c.isAlphanum || c == '_' || c == ':'

/-- Matching of the anchored template-class pattern of cpp_parser.rs:183 —
a nonempty `[\w:]+` head, `<`, a nonempty remainder (in which `.` cannot
cross a newline), and a final `>` — returning the two capture groups.
Backtracking cannot produce a different split: the head is the maximal
word-or-colon run because the character after a shorter head would still be
a word character, not `<`. -/
def templateClassCapture (s : String) : Option (String × String) :=
  let cs := s.data
  let p := cs.takeWhile isWordColonChar
  match cs.drop p.length with
  | '<' :: mid =>
    if p ≠ [] ∧ mid.getLast? = some '>' ∧ mid.dropLast ≠ [] ∧ ¬ mid.dropLast.contains '\n'
    then some (String.mk p, String.mk mid.dropLast)
    else Option.none
  | _ => Option.none

/-- Decimal value of a digit run. -/
def digitsToNat (cs : List Char) : Nat :=
  cs.foldl (fun acc c => acc * 10 + (c.toNat - 48)) 0

/-- Matching of the anchored pattern for dependent template parameters of
cpp_parser.rs:244 — the literal head `type-parameter-`, a digit run, `-`, a
digit run — returning the two numeric capture groups. -/
def typeParameterCapture (s : String) : Option (Nat × Nat) :=
  if strStartsWith s "type-parameter-" then
    let rest := (strDrop s "type-parameter-".data.length).data
    let d1 := rest.takeWhile Char.isDigit
    match rest.drop d1.length with
    | '-' :: d2 =>
      if d1 ≠ [] ∧ d2 ≠ [] ∧ d2.all Char.isDigit
      then some (digitsToNat d1, digitsToNat d2)
      else Option.none
    | _ => Option.none
  else Option.none

/-- The `for arg in matches.at(2).unwrap().split(",")` loops of
`parse_unexposed_type` (cpp_parser.rs:206-218 and 355-367): parse each
trimmed piece with the given parser, wrapping the first failure in the
"Template argument of unexposed type is not parsed" message (which quotes
the untrimmed piece). -/
def parseTemplateArgPieces (parse : String → Except String CppType) :
    List String → Except String (List CppType)
  | [] => Except.ok []
  | arg :: rest =>
    match parse (strTrim arg) with
    | Except.ok arg_type =>
      match parseTemplateArgPieces parse rest with
      | Except.ok arg_types => Except.ok (arg_type :: arg_types)
      | Except.error msg => Except.error msg
    | Except.error msg =>
      Except.error ("Template argument of unexposed type is not parsed: " ++ arg ++ ": " ++ msg)

/-- `CppParser::parse_unexposed_type` (cpp_parser.rs:177) in its
`type1 = None` form, which operates purely on the display string, the two
template-parameter-name contexts (`get_template_arguments` of the context
method and context class), and the type list; this is the form every
internal recursion of the source uses.  The front-end branch
(`type1 = Some(..)`, which needs a live clang type and its declaration) is
outside the model.  Recursion is by fuel; the source recursion always
descends to a strictly shorter string, so any fuel of at least the string
length reproduces it, and `Except.error "fuel"` is unreachable from such a
call. -/
def parseUnexposedTypeBody (types : List CppTypeData)
    (recur : String → Option (List String) → Option (List String) → Except String CppType)
    (string : String) (context_class context_method : Option (List String)) :
    Except String CppType :=
    let is_const := strStartsWith string "const "
    let name := if is_const then strDrop string 6 else string
    match typeParameterCapture name with
    | some lvlidx =>
        Except.ok (CppType.mk is_const CppTypeIndirection.none
          (CppTypeBase.templateParameter lvlidx.1 lvlidx.2))
    | Option.none =>
    let methodStep : Option Nat × Bool :=
      match context_method with
      | some args =>
        if args.isEmpty then (Option.none, false)
        else (args.findIdx? (fun x => x == name), true)
      | Option.none => (Option.none, false)
    match methodStep.1 with
    | some index =>
        Except.ok (CppType.mk is_const CppTypeIndirection.none
          (CppTypeBase.templateParameter 0 index))
    | Option.none =>
    let method_has_template_arguments := methodStep.2
    let classIdx : Option Nat :=
      match context_class with
      | some args => args.findIdx? (fun x => x == name)
      | Option.none => Option.none
    match classIdx with
    | some index =>
        Except.ok (CppType.mk is_const CppTypeIndirection.none
          (CppTypeBase.templateParameter (if method_has_template_arguments then 1 else 0) index))
    | Option.none =>
    let step1 : CppTypeIndirection × String :=
      if strEndsWith name " *" then (CppTypeIndirection.ptr, strTrim (strDropRight name 2))
      else (CppTypeIndirection.none, name)
    let step2 : CppTypeIndirection × String :=
      if strEndsWith step1.2 " &" then (CppTypeIndirection.ref, strTrim (strDropRight step1.2 2))
      else step1
    let indirection := step2.1
    let remaining_name := step2.2
    if remaining_name == "void" then
      Except.ok (CppType.mk is_const indirection CppTypeBase.void)
    else
    match CppBuiltInNumericType.all.find? (fun x => x.to_cpp_code == remaining_name) with
    | some x =>
        Except.ok (CppType.mk is_const indirection (CppTypeBase.builtInNumeric x))
    | Option.none =>
    let recStep : Option (Except String CppType) :=
      if indirection == CppTypeIndirection.ptr || indirection == CppTypeIndirection.ref then
        match recur remaining_name context_class context_method with
        | Except.ok subtype =>
          some (match indirection, subtype.indirection with
            | CppTypeIndirection.ptr, CppTypeIndirection.none =>
                Except.ok (CppType.mk is_const CppTypeIndirection.ptr subtype.base)
            | CppTypeIndirection.ptr, CppTypeIndirection.ptr =>
                Except.ok (CppType.mk is_const CppTypeIndirection.ptrPtr subtype.base)
            | CppTypeIndirection.ref, CppTypeIndirection.none =>
                Except.ok (CppType.mk is_const CppTypeIndirection.ref subtype.base)
            | CppTypeIndirection.ref, CppTypeIndirection.ptr =>
                Except.ok (CppType.mk is_const CppTypeIndirection.ptrRef subtype.base)
            | _, _ => Except.error "too much indirection")
        | Except.error _ => Option.none
      else Option.none
    match recStep with
    | some r => r
    | Option.none =>
    match types.find? (fun x => x.name == remaining_name) with
    | some type_data =>
      match type_data.kind with
      | CppTypeKind.enum _ =>
          Except.ok (CppType.mk is_const indirection (CppTypeBase.enum remaining_name))
      | CppTypeKind.cls _ _ _ _ =>
          Except.ok (CppType.mk is_const indirection (CppTypeBase.cls remaining_name Option.none))
    | Option.none =>
    match templateClassCapture remaining_name with
    | some caps =>
      if types.any (fun x => x.name == caps.1 && x.is_class) then
        match parseTemplateArgPieces
            (fun s => recur s context_class context_method)
            ((splitOnCommas caps.2.data).map String.mk) with
        | Except.ok arg_types =>
            Except.ok (CppType.mk is_const indirection
              (CppTypeBase.cls caps.1 (some arg_types)))
        | Except.error msg => Except.error msg
      else Except.error ("Unrecognized unexposed type: " ++ name)
    | Option.none =>
        Except.error ("Unexposed type has a declaration but is too complex: " ++ name)

/-- Fuel-indexed recursion through the body above: `parseUnexposedType`'s
entry point. -/
def parseUnexposedType (types : List CppTypeData) :
    Nat → String → Option (List String) → Option (List String) → Except String CppType
  | 0, _, _, _ => Except.error "fuel"
  | fuel + 1, string, context_class, context_method =>
    parseUnexposedTypeBody types
      (fun str cc cm => parseUnexposedType types fuel str cc cm)
      string context_class context_method

end Ritual


namespace Ritual

/-- Modelled from the spec: the scalar front-end `TypeKind`s handled by
`parse_canonical_type` (spec 4.3.1; section 6.1 front-end contract). -/
inductive ClangScalarKind where
  | bool | charS | charU | sChar | uChar | wChar | char16 | char32
  | short | uShort | int | uInt | long | uLong | longLong | uLongLong
  | int128 | uInt128 | float | double | longDouble
deriving DecidableEq, Repr

/-- The scalar mapping block of `parse_canonical_type` (cpp_parser.rs:517-540);
`CharS` and `CharU` both map to `Char`. -/
def ClangScalarKind.toNumeric : ClangScalarKind → CppBuiltInNumericType
  | .bool => .bool
  | .charS => .char
  | .charU => .char
  | .sChar => .sChar
  | .uChar => .uChar
  | .wChar => .wChar
  | .char16 => .char16
  | .char32 => .char32
  | .short => .short
  | .uShort => .uShort
  | .int => .int
  | .uInt => .uInt
  | .long => .long
  | .uLong => .uLong
  | .longLong => .longLong
  | .uLongLong => .uLongLong
  | .int128 => .int128
  | .uInt128 => .uInt128
  | .float => .float
  | .double => .double
  | .longDouble => .longDouble

/-- Modelled from the spec: the shape of a canonical front-end type as far as
`parse_canonical_type` inspects it (spec 6.1) — kind, const qualification,
pointee, and function-prototype components.  The `Record`, `Enum` and
`Unexposed` kinds need a live declaration cursor and are outside this
model. -/
inductive ClangType where
  | void (is_const : Bool)
  | scalar (is_const : Bool) (kind : ClangScalarKind)
  | pointer (is_const : Bool) (pointee : ClangType)
  | lvalueReference (is_const : Bool) (pointee : ClangType)
  | rvalueReference (is_const : Bool) (pointee : ClangType)
  | functionPrototype (is_const : Bool) (result : ClangType) (argumentTypes : List ClangType)
      (is_variadic : Bool)

/-- The indirection lift of the `Pointer`/`LValueReference`/`RValueReference`
branch of `parse_canonical_type` (cpp_parser.rs:639-674), applied to the
parsed pointee `result`; `outer` is the outer type's kind (restricted to the
three pointer-like kinds, as in the source match). -/
def liftPointeeIndirection (outer : ClangType) (result : CppType) :
    Except String CppTypeIndirection :=
  match outer with
  | ClangType.pointer _ _ =>
    match result.indirection with
    | CppTypeIndirection.none =>
      match result.base with
      | CppTypeBase.functionPointer _ _ _ => Except.ok CppTypeIndirection.none
      | _ => Except.ok CppTypeIndirection.ptr
    | CppTypeIndirection.ptr => Except.ok CppTypeIndirection.ptrPtr
    | other =>
        Except.error ("Unsupported level of indirection: pointer to " ++ other.debugStr)
  | ClangType.lvalueReference _ _ =>
    match result.indirection with
    | CppTypeIndirection.none => Except.ok CppTypeIndirection.ref
    | CppTypeIndirection.ptr => Except.ok CppTypeIndirection.ptrRef
    | other =>
        Except.error ("Unsupported level of indirection: reference to " ++ other.debugStr)
  | ClangType.rvalueReference _ _ =>
    if result.indirection == CppTypeIndirection.none then Except.ok CppTypeIndirection.ref
    else
      Except.error ("Unsupported level of indirection: r-value reference to " ++
        result.indirection.debugStr)
  | _ => Except.error "unreachable: lift is only applied to pointer-like kinds"

mutual

/-- `CppParser::parse_canonical_type` (cpp_parser.rs:481) on the modelled
canonical shapes.  For pointee and prototype components the source calls
`parse_type`, which is `parse_canonical_type` followed by the named-typedef
refinement keyed on the display name; on canonical (typedef-erased) types
the display name never spells a fixed-width typedef, so the refinement is
the identity and the recursion is modelled directly. -/
def parse_canonical_type : ClangType → Except String CppType
  | ClangType.void is_const =>
      Except.ok (CppType.mk is_const CppTypeIndirection.none CppTypeBase.void)
  | ClangType.scalar is_const kind =>
      Except.ok (CppType.mk is_const CppTypeIndirection.none
        (CppTypeBase.builtInNumeric kind.toNumeric))
  | ClangType.functionPrototype is_const result argumentTypes is_variadic =>
      match parseCanonicalList argumentTypes with
      | Except.error msg =>
          Except.error ("Failed to parse function type's argument type: " ++ msg)
      | Except.ok arguments =>
        match parse_canonical_type result with
        | Except.error msg =>
            Except.error ("Failed to parse function type's argument type: " ++ msg)
        | Except.ok return_type =>
            Except.ok (CppType.mk is_const CppTypeIndirection.none
              (CppTypeBase.functionPointer return_type arguments is_variadic))
  | ClangType.pointer is_const pointee =>
      match parse_canonical_type pointee with
      | Except.ok result =>
        match liftPointeeIndirection (ClangType.pointer is_const pointee) result with
        | Except.ok new_indirection =>
            Except.ok (CppType.mk result.is_const new_indirection result.base)
        | Except.error msg => Except.error msg
      | Except.error msg => Except.error msg
  | ClangType.lvalueReference is_const pointee =>
      match parse_canonical_type pointee with
      | Except.ok result =>
        match liftPointeeIndirection (ClangType.lvalueReference is_const pointee) result with
        | Except.ok new_indirection =>
            Except.ok (CppType.mk result.is_const new_indirection result.base)
        | Except.error msg => Except.error msg
      | Except.error msg => Except.error msg
  | ClangType.rvalueReference is_const pointee =>
      match parse_canonical_type pointee with
      | Except.ok result =>
        match liftPointeeIndirection (ClangType.rvalueReference is_const pointee) result with
        | Except.ok new_indirection =>
            Except.ok (CppType.mk result.is_const new_indirection result.base)
        | Except.error msg => Except.error msg
      | Except.error msg => Except.error msg
termination_by structural x => x

/-- The `for arg_type in type1.get_argument_types()` loop of the
`FunctionPrototype` branch (cpp_parser.rs:601-611): first failure wins. -/
def parseCanonicalList : List ClangType → Except String (List CppType)
  | [] => Except.ok []
  | x :: xs =>
      match parse_canonical_type x with
      | Except.ok t =>
        match parseCanonicalList xs with
        | Except.ok ts => Except.ok (t :: ts)
        | Except.error msg => Except.error msg
      | Except.error msg => Except.error msg
termination_by structural x => x

end

end Ritual

namespace Ritual

/-! Fixtures used in concrete-input statements. -/

/-- The canonical tree of `const int`. -/
def constIntCanonical : ClangType := ClangType.scalar true ClangScalarKind.int

/-- The canonical tree of `const int * const`. -/
def constIntPtrCanonical : ClangType := ClangType.pointer true constIntCanonical

/-- The canonical tree of `const int * const *`. -/
def constIntPtrPtrCanonical : ClangType := ClangType.pointer false constIntPtrCanonical

/-- C7: in canonical-type parsing, an outer `Pointer` over a pointee result
with `Ptr` indirection yields `PtrPtr` with the pointee's base and const flag
(`const int * const *` parses to `PtrPtr`, `is_const = true`); an outer
`Pointer` or `LValueReference` over a pointee result with `PtrPtr`, `PtrRef`
or `Ref` indirection, and an `RValueReference` over a `Ptr` pointee result,
return the "Unsupported level of indirection" error. -/
theorem c7_canonical_indirection_lift :
    (∀ (c : Bool) (p : ClangType) (r : CppType), parse_canonical_type p = Except.ok r →
      (r.indirection = CppTypeIndirection.ptr →
        parse_canonical_type (ClangType.pointer c p) =
          Except.ok (CppType.mk r.is_const CppTypeIndirection.ptrPtr r.base)) ∧
      (r.indirection = CppTypeIndirection.ptrPtr ∨ r.indirection = CppTypeIndirection.ptrRef ∨
          r.indirection = CppTypeIndirection.ref →
        parse_canonical_type (ClangType.pointer c p) =
          Except.error ("Unsupported level of indirection: pointer to " ++
            r.indirection.debugStr) ∧
        parse_canonical_type (ClangType.lvalueReference c p) =
          Except.error ("Unsupported level of indirection: reference to " ++
            r.indirection.debugStr)) ∧
      (r.indirection = CppTypeIndirection.ptr →
        parse_canonical_type (ClangType.rvalueReference c p) =
          Except.error "Unsupported level of indirection: r-value reference to Ptr")) ∧
    parse_canonical_type constIntPtrPtrCanonical =
      Except.ok (CppType.mk true CppTypeIndirection.ptrPtr
        (CppTypeBase.builtInNumeric CppBuiltInNumericType.int)) ∧
    parse_canonical_type (ClangType.pointer false constIntPtrPtrCanonical) =
      Except.error "Unsupported level of indirection: pointer to PtrPtr" := by
  refine ⟨?_, by decide, by decide⟩
  intro c p r hp
  obtain ⟨rc, ri, rb⟩ := r
  refine ⟨?_, ?_, ?_⟩
  · intro hi
    simp only [CppType.indirection] at hi
    subst hi
    simp [parse_canonical_type, hp, liftPointeeIndirection, CppType.indirection,
      CppType.is_const, CppType.base]
  · intro hi
    simp only [CppType.indirection] at hi
    rcases hi with hi | hi | hi <;> subst hi <;>
      simp [parse_canonical_type, hp, liftPointeeIndirection, CppType.indirection,
        CppTypeIndirection.debugStr]
  · intro hi
    simp only [CppType.indirection] at hi
    subst hi
    simp [parse_canonical_type, hp, liftPointeeIndirection, CppType.indirection,
      CppTypeIndirection.debugStr]

/-- Witness for C7 at a concrete input: the pointee `const int * const`
parses with `Ptr` indirection, and the theorem applied there gives the
`PtrPtr` lift. -/
theorem c7_canonical_indirection_lift_witness :
    parse_canonical_type constIntPtrCanonical =
      Except.ok (CppType.mk true CppTypeIndirection.ptr
        (CppTypeBase.builtInNumeric CppBuiltInNumericType.int)) ∧
    parse_canonical_type (ClangType.pointer false constIntPtrCanonical) =
      Except.ok (CppType.mk true CppTypeIndirection.ptrPtr
        (CppTypeBase.builtInNumeric CppBuiltInNumericType.int)) := by
  have h := (c7_canonical_indirection_lift.1 false constIntPtrCanonical
    (CppType.mk true CppTypeIndirection.ptr
      (CppTypeBase.builtInNumeric CppBuiltInNumericType.int)) (by decide)).1 (by decide)
  exact ⟨by decide, h⟩

end Ritual

namespace Ritual

/-- An `int` type value. -/
def exIntT : CppType :=
  CppType.mk false CppTypeIndirection.none (CppTypeBase.builtInNumeric CppBuiltInNumericType.int)

/-- A template-parameter type value (`T` of the innermost list). -/
def exTpT : CppType :=
  CppType.mk false CppTypeIndirection.none (CppTypeBase.templateParameter 0 0)

/-- A two-parameter class template `V<T, U>`. -/
def exClassV : CppTypeData :=
  { name := "V", include_file := "v.h", origin_location := ⟨"v.h", 1, 1⟩
    kind := CppTypeKind.cls Option.none [] [] (some ["T", "U"]) }

/-- A free function returning the partially bound `V<int, T>`. -/
def exMethodMixed : CppMethod :=
  { name := "f", class_membership := Option.none, operator := Option.none
    return_type := CppType.mk false CppTypeIndirection.none
      (CppTypeBase.cls "V" (some [exIntT, exTpT]))
    arguments := [], allows_variadic_arguments := false
    include_file := "v.h", origin_location := Option.none, template_arguments := Option.none }

/-- Soundness predicate for the instantiation map: every recorded tuple
contains at least one argument whose base is not a template parameter. -/
def TIMapSound (r : TIMap) : Prop :=
  ∀ p ∈ r, ∀ args ∈ p.2, ∃ a ∈ args, a.base.is_template_parameter = false

theorem tiEnsureKey_sound {r : TIMap} {name : String} (hr : TIMapSound r) :
    TIMapSound (tiEnsureKey name r) := by
  unfold tiEnsureKey
  split
  · exact hr
  · intro p hp args hargs
    rcases List.mem_append.mp hp with hp | hp
    · exact hr p hp args hargs
    · simp only [List.mem_singleton] at hp
      subst hp
      simp at hargs

theorem tiRecord_sound {r : TIMap} {name : String} {targs : List CppType}
    (hr : TIMapSound r) (ht : ∃ a ∈ targs, a.base.is_template_parameter = false) :
    TIMapSound (tiRecord name targs r) := by
  have h1 : TIMapSound (tiEnsureKey name r) := tiEnsureKey_sound hr
  unfold tiRecord
  split
  · exact h1
  · intro p hp args hargs
    simp only [List.mem_map] at hp
    obtain ⟨q, hq, hpq⟩ := hp
    by_cases hk : (q.1 == name) = true
    · rw [if_pos hk] at hpq
      subst hpq
      simp only at hargs
      rcases List.mem_append.mp hargs with h | h
      · exact h1 q hq args h
      · simp only [List.mem_singleton] at h
        subst h
        exact ht
    · rw [if_neg hk] at hpq
      subst hpq
      exact h1 q hq args hargs

mutual

theorem checkTypeTI_sound : ∀ (t : CppType) (r : TIMap), TIMapSound r →
    TIMapSound (checkTypeTI t r)
  | CppType.mk c i (CppTypeBase.cls name (some template_arguments)), r => by
      intro hr
      rw [checkTypeTI]
      split
      · rename_i hguard
        refine checkTypeTIList_sound template_arguments _ (tiRecord_sound hr ?_)
        simp only [List.any_eq_true, Bool.not_eq_true'] at hguard
        exact hguard
      · exact hr
  | CppType.mk c i CppTypeBase.void, r => fun hr => hr
  | CppType.mk c i (CppTypeBase.builtInNumeric _), r => fun hr => hr
  | CppType.mk c i (CppTypeBase.specificNumeric _ _ _), r => fun hr => hr
  | CppType.mk c i (CppTypeBase.pointerSizedInteger _ _), r => fun hr => hr
  | CppType.mk c i (CppTypeBase.enum _), r => fun hr => hr
  | CppType.mk c i (CppTypeBase.cls _ Option.none), r => fun hr => hr
  | CppType.mk c i (CppTypeBase.functionPointer _ _ _), r => fun hr => hr
  | CppType.mk c i (CppTypeBase.templateParameter _ _), r => fun hr => hr

theorem checkTypeTIList_sound : ∀ (l : List CppType) (r : TIMap), TIMapSound r →
    TIMapSound (checkTypeTIList l r)
  | [], r => fun hr => hr
  | x :: xs, r => fun hr => checkTypeTIList_sound xs _ (checkTypeTI_sound x r hr)

end

theorem foldl_preserves {α β : Type} (P : β → Prop) (f : β → α → β)
    (hf : ∀ b a, P b → P (f b a)) : ∀ (l : List α) (b : β), P b → P (List.foldl f b l) := by
  intro l
  induction l with
  | nil => intro b hb; exact hb
  | cons x xs ih => intro b hb; exact ih (f b x) (hf b x hb)

theorem tiCollect_sound (types : List CppTypeData) (methods : List CppMethod) :
    TIMapSound (tiCollect types methods) := by
  refine foldl_preserves TIMapSound _ ?_ types _
    (foldl_preserves TIMapSound _ ?_ methods _ ?_)
  · intro b t hb
    match t with
    | ⟨n, inc, loc, CppTypeKind.cls sz bases fields ta⟩ =>
      exact foldl_preserves TIMapSound _ (fun b a hb => checkTypeTI_sound a b hb) bases _ hb
    | ⟨n, inc, loc, CppTypeKind.enum v⟩ => exact hb
  · intro b m hb
    exact foldl_preserves TIMapSound _ (fun b a hb => checkTypeTI_sound a.argument_type b hb)
      m.arguments _ (checkTypeTI_sound m.return_type b hb)
  · intro p hp
    simp at hp

theorem find_template_instantiations_sound {types : List CppTypeData}
    {methods : List CppMethod} {r : TIMap}
    (h : find_template_instantiations types methods = some r) :
    TIMapSound r ∧ validTI types r = true := by
  unfold find_template_instantiations at h
  split at h
  · rename_i hvalid
    cases h
    exact ⟨tiCollect_sound types methods, hvalid⟩
  · cases h

/-- C2: corrected.  For every completed (panic-free) run of
`find_template_instantiations`, every recorded tuple contains at least one
argument whose base is NOT a `TemplateParameter` (fully generic tuples are
never recorded, but partially bound tuples are recorded together with their
`TemplateParameter` members), and every recorded name resolves to a declared
class template whose template-parameter count equals the length of every
recorded tuple. -/
theorem c2_recorded_instantiations (types : List CppTypeData) (methods : List CppMethod)
    (r : TIMap) (h : find_template_instantiations types methods = some r) :
    (∀ p ∈ r, ∀ args ∈ p.2, ∃ a ∈ args, a.base.is_template_parameter = false) ∧
    (∀ p ∈ r, ∃ ti, types.find? (fun x => x.name == p.1) = some ti ∧
      ∃ sz bases fields targs, ti.kind = CppTypeKind.cls sz bases fields (some targs) ∧
        ∀ args ∈ p.2, args.length = targs.length) := by
  obtain ⟨hs, hv⟩ := find_template_instantiations_sound h
  refine ⟨hs, ?_⟩
  intro p hp
  have hv' := (List.all_eq_true.mp hv) p hp
  simp only at hv'
  rcases hfind : types.find? (fun x => x.name == p.1) with _ | ti
  · rw [hfind] at hv'
    simp at hv'
  · rw [hfind] at hv'
    refine ⟨ti, hfind, ?_⟩
    have hv2 : (match ti.kind with
        | CppTypeKind.cls _ _ _ (some template_arguments) =>
            p.2.all (fun ins => ins.length == template_arguments.length)
        | _ => false) = true := hv'
    rcases hkind : ti.kind with values | ⟨sz, bases, fields, ta⟩
    · rw [hkind] at hv2
      simp at hv2
    · rw [hkind] at hv2
      rcases ta with _ | targs
      · simp at hv2
      · refine ⟨sz, bases, fields, targs, rfl, ?_⟩
        intro args hargs
        simp only at hv2
        have := (List.all_eq_true.mp hv2) args hargs
        simpa using this

/-- Counterexample to C2 as stated: the partially bound instantiation
`V<int, T>` is recorded, and its second recorded argument has a
`TemplateParameter` base. -/
theorem c2_counterexample :
    find_template_instantiations [exClassV] [exMethodMixed] =
      some [("V", [[exIntT, exTpT]])] ∧
    exTpT.base.is_template_parameter = true := by
  constructor
  · decide
  · decide

/-- Witness for C2 at a concrete input: a completed run on the fixture
model, with the theorem's conclusions instantiated there. -/
theorem c2_recorded_instantiations_witness :
    (∃ a ∈ [exIntT, exTpT], a.base.is_template_parameter = false) ∧
    (∃ ti, [exClassV].find? (fun x => x.name == "V") = some ti) := by
  have h := c2_recorded_instantiations [exClassV] [exMethodMixed]
    [("V", [[exIntT, exTpT]])] (by decide)
  refine ⟨h.1 ("V", [[exIntT, exTpT]]) (by simp) [exIntT, exTpT] (by simp), ?_⟩
  obtain ⟨ti, hti, _⟩ := h.2 ("V", [[exIntT, exTpT]]) (by simp)
  exact ⟨ti, hti⟩

end Ritual

namespace Ritual

/-- Length of the maximal trailing run of default-valued arguments. -/
def trailingDefaults (l : List CppFunctionArgument) : Nat :=
  (l.reverse.takeWhile (fun a => a.has_default_value)).length

theorem length_takeWhile_le' {α : Type} (p : α → Bool) (l : List α) :
    (l.takeWhile p).length ≤ l.length := by
  induction l with
  | nil => simp
  | cons x xs ih =>
    simp only [List.takeWhile_cons]
    split
    · simpa using Nat.succ_le_succ ih
    · simp

theorem trailingDefaults_le (l : List CppFunctionArgument) : trailingDefaults l ≤ l.length := by
  unfold trailingDefaults
  calc (l.reverse.takeWhile (fun a => a.has_default_value)).length
      ≤ l.reverse.length := length_takeWhile_le' _ _
    _ = l.length := List.length_reverse l

theorem trailingDefaults_concat_true (as : List CppFunctionArgument)
    (a : CppFunctionArgument) (ha : a.has_default_value = true) :
    trailingDefaults (as ++ [a]) = trailingDefaults as + 1 := by
  unfold trailingDefaults
  rw [List.reverse_append]
  simp [List.takeWhile_cons, ha, Nat.add_comm]

theorem trailingDefaults_concat_false (as : List CppFunctionArgument)
    (a : CppFunctionArgument) (ha : a.has_default_value = false) :
    trailingDefaults (as ++ [a]) = 0 := by
  unfold trailingDefaults
  rw [List.reverse_append]
  simp [List.takeWhile_cons, ha]

theorem omittedClonesGo_eq (m : CppMethod) : ∀ (n : Nat) (l : List CppFunctionArgument),
    l.length ≤ n →
    omittedClonesGo n { m with arguments := l } =
      (List.range (trailingDefaults l)).map
        (fun i => { m with arguments := l.take (l.length - (i + 1)) }) := by
  intro n
  induction n with
  | zero =>
    intro l hl
    have : l = [] := List.length_eq_zero.mp (Nat.le_zero.mp hl)
    subst this
    simp [omittedClonesGo, trailingDefaults]
  | succ n ih =>
    intro l hl
    rcases List.eq_nil_or_concat l with rfl | ⟨as, a, rfl⟩
    · simp [omittedClonesGo, trailingDefaults]
    · rw [List.concat_eq_append] at hl ⊢
      rw [omittedClonesGo]
      simp only [List.getLast?_concat]
      by_cases ha : a.has_default_value = true
      · rw [if_pos ha]
        simp only [List.dropLast_concat]
        have has : as.length ≤ n := by
          have := hl
          simp only [List.length_append, List.length_singleton] at this
          omega
        rw [ih as has]
        rw [trailingDefaults_concat_true as a ha]
        rw [List.range_succ_eq_map]
        simp only [List.map_cons, List.map_map]
        congr 1
        · have h1 : (as ++ [a]).length - (0 + 1) = as.length := by
            simp only [List.length_append, List.length_singleton]
            omega
          rw [h1, List.take_left]
        · apply List.map_congr_left
          intro i hi
          simp only [Function.comp]
          have hlen : as.length + 1 - (i + 1 + 1) = as.length - (i + 1) := by omega
          have htake : (as ++ [a]).take (as.length - (i + 1)) = as.take (as.length - (i + 1)) :=
            List.take_append_of_le_length (by omega)
          simp only [List.length_append, List.length_singleton, hlen, htake]
      · rw [if_neg ha]
        rw [trailingDefaults_concat_false as a (Bool.not_eq_true _ ▸ ha)]
        simp

theorem omittedClones_eq (m : CppMethod) :
    m.omittedClones = (List.range (trailingDefaults m.arguments)).map
      (fun i => { m with arguments := m.arguments.take (m.arguments.length - (i + 1)) }) := by
  have h := omittedClonesGo_eq m m.arguments.length m.arguments (Nat.le_refl _)
  simpa [CppMethod.omittedClones] using h

theorem trailingDefaults_suffix_all (l : List CppFunctionArgument) :
    (l.drop (l.length - trailingDefaults l)).all (fun a => a.has_default_value) = true := by
  induction l using List.reverseRecOn with
  | nil => simp
  | append_singleton as a ih =>
    by_cases ha : a.has_default_value = true
    · rw [trailingDefaults_concat_true as a ha]
      have hk : trailingDefaults as ≤ as.length := trailingDefaults_le as
      have hlen : (as ++ [a]).length - (trailingDefaults as + 1) =
          as.length - trailingDefaults as := by
        simp only [List.length_append, List.length_singleton]
        omega
      rw [hlen, List.drop_append_of_le_length (by omega)]
      simp only [List.all_append, ih, Bool.true_and]
      simp [ha]
    · rw [trailingDefaults_concat_false as a (Bool.not_eq_true _ ▸ ha)]
      simp

end Ritual

namespace Ritual

/-- C4: `generate_methods_with_omitted_args` appends, for each method whose
maximal trailing run of default-valued arguments has length `k`, exactly the
`k` clones obtained by popping 1 through `k` trailing arguments; every clone
agrees with its original on every field except the argument list, its
argument list is a proper prefix (an initial segment) of the original's, the
popped tail consists of default-valued arguments only, and a method whose
last argument has no default produces no clones. -/
theorem c4_omitted_argument_clones :
    (∀ d : CppData,
      (d.generate_methods_with_omitted_args).types = d.types ∧
      (d.generate_methods_with_omitted_args).template_instantiations =
        d.template_instantiations ∧
      (d.generate_methods_with_omitted_args).methods =
        d.methods ++ d.methods.flatMap (fun m => m.omittedClones)) ∧
    (∀ m : CppMethod,
      m.omittedClones.length = trailingDefaults m.arguments ∧
      m.omittedClones = (List.range (trailingDefaults m.arguments)).map
        (fun i => { m with arguments := m.arguments.take (m.arguments.length - (i + 1)) })) ∧
    (∀ m : CppMethod, ∀ c ∈ m.omittedClones,
      c.name = m.name ∧ c.class_membership = m.class_membership ∧
      c.operator = m.operator ∧ c.return_type = m.return_type ∧
      c.allows_variadic_arguments = m.allows_variadic_arguments ∧
      c.include_file = m.include_file ∧ c.origin_location = m.origin_location ∧
      c.template_arguments = m.template_arguments ∧
      c.arguments.length < m.arguments.length ∧
      c.arguments = m.arguments.take c.arguments.length ∧
      (m.arguments.drop c.arguments.length).all (fun a => a.has_default_value) = true) ∧
    (∀ m : CppMethod, ∀ a, m.arguments.getLast? = some a → a.has_default_value = false →
      m.omittedClones = []) := by
  refine ⟨?_, ?_, ?_, ?_⟩
  · intro d
    exact ⟨rfl, rfl, rfl⟩
  · intro m
    exact ⟨by rw [omittedClones_eq]; simp, omittedClones_eq m⟩
  · intro m c hc
    rw [omittedClones_eq] at hc
    simp only [List.mem_map, List.mem_range] at hc
    obtain ⟨i, hi, rfl⟩ := hc
    have hk := trailingDefaults_le m.arguments
    have hlenpos : 0 < m.arguments.length := by omega
    have harglen :
        (m.arguments.take (m.arguments.length - (i + 1))).length =
          m.arguments.length - (i + 1) := by
      rw [List.length_take]
      omega
    refine ⟨rfl, rfl, rfl, rfl, rfl, rfl, rfl, rfl, ?_, ?_, ?_⟩
    · simp only [harglen]
      omega
    · simp only [harglen]
    · simp only [harglen]
      have hall := trailingDefaults_suffix_all m.arguments
      have hsub : m.arguments.drop (m.arguments.length - (i + 1)) ⊆
          m.arguments.drop (m.arguments.length - trailingDefaults m.arguments) := by
        have hdd : m.arguments.drop (m.arguments.length - (i + 1)) =
            (m.arguments.drop (m.arguments.length - trailingDefaults m.arguments)).drop
              ((m.arguments.length - (i + 1)) -
                (m.arguments.length - trailingDefaults m.arguments)) := by
          rw [List.drop_drop]
          congr 1
          omega
        rw [hdd]
        exact List.drop_subset _ _
      rw [List.all_eq_true] at hall ⊢
      intro x hx
      exact hall x (hsub hx)
  · intro m a hlast hdef
    rw [omittedClones_eq]
    have : trailingDefaults m.arguments = 0 := by
      rcases List.eq_nil_or_concat m.arguments with hnil | ⟨as, b, hcat⟩
      · rw [hnil]
        simp [trailingDefaults]
      · rw [List.concat_eq_append] at hcat
        rw [hcat] at hlast
        rw [List.getLast?_concat] at hlast
        cases hlast
        rw [hcat]
        exact trailingDefaults_concat_false as a hdef
    rw [this]
    simp

/-- Witness for C4 at a concrete input: a method with one non-default and two
trailing defaulted arguments yields exactly its two clones, and the clause
conclusions hold on the first clone. -/
theorem c4_omitted_argument_clones_witness :
    (∃ m : CppMethod, m.arguments.length = 3 ∧ trailingDefaults m.arguments = 2 ∧
      m.omittedClones.length = 2 ∧
      ∀ c ∈ m.omittedClones, c.arguments.length < m.arguments.length) := by
  refine ⟨{ name := "g", class_membership := Option.none, operator := Option.none,
            return_type := CppType.void,
            arguments := [⟨"a", exIntT, false⟩, ⟨"b", exIntT, true⟩, ⟨"c", exIntT, true⟩],
            allows_variadic_arguments := false, include_file := "g.h",
            origin_location := Option.none, template_arguments := Option.none },
        by decide, by decide, ?_, ?_⟩
  · exact (c4_omitted_argument_clones.2.1 _).1.trans (by decide)
  · intro c hc
    exact (c4_omitted_argument_clones.2.2.1 _ c hc).2.2.2.2.2.2.2.2.1

end Ritual

namespace Ritual

/-- One step of the `ensure_explicit_destructors` loop, with the type list
made explicit. -/
def ensureStep (types : List CppTypeData) (methods : List CppMethod) (t : CppTypeData) :
    List CppMethod :=
  match t.kind with
  | CppTypeKind.cls _ _ _ _ =>
    if methods.any (fun m => m.is_destructor && m.class_name == some t.name) then methods
    else methods ++ [synthesizedDestructor types methods t]
  | _ => methods

theorem ensure_explicit_destructors_eq (d : CppData) :
    d.ensure_explicit_destructors =
      { d with methods := d.types.foldl (ensureStep d.types) d.methods } := rfl

/-- A destructor bound to the named class is present. -/
def hasDestructorFor (methods : List CppMethod) (c : String) : Bool :=
  methods.any (fun m => m.is_destructor && m.class_name == some c)

theorem ensureStep_append (types : List CppTypeData) (methods : List CppMethod)
    (t : CppTypeData) : ∃ suffix, ensureStep types methods t = methods ++ suffix := by
  unfold ensureStep
  match t.kind with
  | CppTypeKind.cls _ _ _ _ =>
    simp only
    split
    · exact ⟨[], by simp⟩
    · exact ⟨_, rfl⟩
  | CppTypeKind.enum _ => exact ⟨[], by simp⟩

theorem hasDestructorFor_append {methods : List CppMethod} {c : String}
    (suffix : List CppMethod) (h : hasDestructorFor methods c = true) :
    hasDestructorFor (methods ++ suffix) c = true := by
  unfold hasDestructorFor at h ⊢
  rw [List.any_eq_true] at h ⊢
  obtain ⟨m, hm, hp⟩ := h
  exact ⟨m, List.mem_append_left _ hm, hp⟩

theorem hasDestructorFor_foldl {types : List CppTypeData} {c : String}
    (ts : List CppTypeData) (methods : List CppMethod)
    (h : hasDestructorFor methods c = true) :
    hasDestructorFor (ts.foldl (ensureStep types) methods) c = true := by
  induction ts generalizing methods with
  | nil => exact h
  | cons t ts ih =>
    rw [List.foldl_cons]
    obtain ⟨suffix, hs⟩ := ensureStep_append types methods t
    exact ih _ (hs ▸ hasDestructorFor_append suffix h)

theorem synthesizedDestructor_is_destructor (types : List CppTypeData)
    (methods : List CppMethod) (t : CppTypeData) :
    (synthesizedDestructor types methods t).is_destructor = true := rfl

theorem synthesizedDestructor_class_name (types : List CppTypeData)
    (methods : List CppMethod) (t : CppTypeData) (ht : t.is_class = true) :
    (synthesizedDestructor types methods t).class_name = some t.name := by
  unfold CppTypeData.is_class at ht
  unfold synthesizedDestructor CppMethod.class_name
  simp only
  unfold CppTypeData.default_class_type
  match hk : t.kind with
  | CppTypeKind.cls _ _ _ _ => simp [CppTypeBase.maybe_name]
  | CppTypeKind.enum _ => rw [hk] at ht; simp at ht

theorem ensureStep_cls {t : CppTypeData} {sz : Option Int} {bases : List CppType}
    {fields : List CppClassField} {ta : Option (List String)}
    (hk : t.kind = CppTypeKind.cls sz bases fields ta)
    (types : List CppTypeData) (methods : List CppMethod) :
    ensureStep types methods t =
      if methods.any (fun m => m.is_destructor && m.class_name == some t.name) then methods
      else methods ++ [synthesizedDestructor types methods t] := by
  unfold ensureStep
  rw [hk]

theorem ensureStep_enum {t : CppTypeData} {values : List EnumValue}
    (hk : t.kind = CppTypeKind.enum values)
    (types : List CppTypeData) (methods : List CppMethod) :
    ensureStep types methods t = methods := by
  unfold ensureStep
  rw [hk]

theorem ensure_establishes (types : List CppTypeData) :
    ∀ (ts : List CppTypeData) (methods : List CppMethod),
      ∀ t ∈ ts, t.is_class = true →
        hasDestructorFor (ts.foldl (ensureStep types) methods) t.name = true := by
  intro ts
  induction ts with
  | nil => intro methods t ht; simp at ht
  | cons t0 ts ih =>
    intro methods t ht hc
    rw [List.foldl_cons]
    rcases List.mem_cons.mp ht with rfl | hmem
    · have hstep : hasDestructorFor (ensureStep types methods t) t.name = true := by
        unfold CppTypeData.is_class at hc
        rcases hk : t.kind with values | ⟨sz, bases, fields, ta⟩
        · rw [hk] at hc; simp at hc
        · rw [ensureStep_cls hk]
          split
          · rename_i hfound
            exact hfound
          · unfold hasDestructorFor
            rw [List.any_eq_true]
            refine ⟨synthesizedDestructor types methods t, by simp, ?_⟩
            rw [Bool.and_eq_true]
            constructor
            · exact synthesizedDestructor_is_destructor types methods t
            · rw [synthesizedDestructor_class_name types methods t
                (by unfold CppTypeData.is_class; rw [hk])]
              simp
      exact hasDestructorFor_foldl ts _ hstep
    · exact ih _ t hmem hc

theorem ensure_second_identity (types : List CppTypeData) :
    ∀ (ts : List CppTypeData) (methods : List CppMethod),
      (∀ t ∈ ts, t.is_class = true → hasDestructorFor methods t.name = true) →
      ts.foldl (ensureStep types) methods = methods := by
  intro ts
  induction ts with
  | nil => intro methods _; rfl
  | cons t0 ts ih =>
    intro methods h
    rw [List.foldl_cons]
    have hstep : ensureStep types methods t0 = methods := by
      rcases hk : t0.kind with values | ⟨sz, bases, fields, ta⟩
      · exact ensureStep_enum hk types methods
      · rw [ensureStep_cls hk]
        have hfound : (methods.any fun m => m.is_destructor && m.class_name == some t0.name) =
            true :=
          h t0 (List.mem_cons_self _ _) (by unfold CppTypeData.is_class; rw [hk])
        rw [if_pos hfound]
    rw [hstep]
    exact ih methods (fun t ht => h t (List.mem_cons_of_mem _ ht))

/-- C9: `ensure_explicit_destructors` is idempotent — after one application
every class in the type list has a destructor bound to it, so a second
application finds one for every class and inserts nothing. -/
theorem c9_ensure_destructors_idempotent (d : CppData) :
    (d.ensure_explicit_destructors).ensure_explicit_destructors =
      d.ensure_explicit_destructors := by
  rw [ensure_explicit_destructors_eq d, ensure_explicit_destructors_eq]
  simp only
  rw [ensure_second_identity]
  intro t ht hc
  exact ensure_establishes d.types d.types d.methods t ht hc

end Ritual

namespace Ritual

/-- A base-class reference to `Base`. -/
def exBaseRef : CppType := CppType.mk false CppTypeIndirection.none (CppTypeBase.cls "Base" Option.none)

/-- `struct Base { void m(); };` -/
def exBaseT : CppTypeData :=
  { name := "Base", include_file := "b.h", origin_location := ⟨"b.h", 1, 1⟩
    kind := CppTypeKind.cls (some 1) [] [] Option.none }

/-- `struct Derived : Base { void m(); };` -/
def exDerivedT : CppTypeData :=
  { name := "Derived", include_file := "d.h", origin_location := ⟨"d.h", 1, 1⟩
    kind := CppTypeKind.cls (some 1) [exBaseRef] [] Option.none }

/-- `struct OnlyDerived : Base {};` -/
def exOnlyDerivedT : CppTypeData :=
  { name := "OnlyDerived", include_file := "od.h", origin_location := ⟨"od.h", 1, 1⟩
    kind := CppTypeKind.cls (some 1) [exBaseRef] [] Option.none }

/-- `Base::m`. -/
def exBaseM : CppMethod :=
  { name := "m"
    class_membership := some
      { class_type := CppTypeBase.cls "Base" Option.none, kind := CppMethodKind.regular
        is_virtual := false, is_pure_virtual := false, is_const := false, is_static := false
        visibility := CppVisibility.pub, is_signal := false }
    operator := Option.none, return_type := CppType.void, arguments := []
    allows_variadic_arguments := false, include_file := "b.h"
    origin_location := some ⟨"b.h", 1, 10⟩, template_arguments := Option.none }

/-- `Derived::m`. -/
def exDerivedM : CppMethod :=
  { name := "m"
    class_membership := some
      { class_type := CppTypeBase.cls "Derived" Option.none, kind := CppMethodKind.regular
        is_virtual := false, is_pure_virtual := false, is_const := false, is_static := false
        visibility := CppVisibility.pub, is_signal := false }
    operator := Option.none, return_type := CppType.void, arguments := []
    allows_variadic_arguments := false, include_file := "d.h"
    origin_location := some ⟨"d.h", 1, 10⟩, template_arguments := Option.none }

/-- The inheritance-scenario model of spec section 8 scenario 5. -/
def exInheritData : CppData := ⟨[exBaseT, exDerivedT, exOnlyDerivedT], [exBaseM, exDerivedM], []⟩

/-- C5: the inherited-method pass clones, for each class directly deriving
the processed base, every inheritable base-bound method without a
same-named method on the derived class; each clone is the original with its
owning class type rebound to the derived class's default class type, the
derived class's include file, and a cleared origin; and on the spec's
scenario (`Base::m`, `Derived::m`, `OnlyDerived`) the colliding `Derived::m`
is not inherited while `OnlyDerived` receives the rebound clone — the
recursion propagating through transitively derived classes. -/
theorem c5_inherited_method_cloning :
    (∀ (d : CppData) (base_name : String),
      (d.add_inherited_methods_from_step base_name).1.types = d.types ∧
      (d.add_inherited_methods_from_step base_name).1.template_instantiations =
        d.template_instantiations ∧
      (d.add_inherited_methods_from_step base_name).2 =
        (d.types.filter (fun t => t.inherits base_name)).map (fun t => t.name) ∧
      (∀ m : CppMethod, m ∈ (d.add_inherited_methods_from_step base_name).1.methods ↔
        m ∈ d.methods ∨
        ∃ t ∈ d.types, t.inherits base_name = true ∧
          ∃ bm ∈ d.methods, isInheritableFrom base_name bm = true ∧
            ¬(∃ m2 ∈ d.methods, m2.class_name = some t.name ∧ m2.name = bm.name) ∧
            m = inheritClone t bm)) ∧
    (∀ (t : CppTypeData) (bm : CppMethod) (i : CppMethodClassMembership),
      bm.class_membership = some i →
        (inheritClone t bm).class_membership = some { i with class_type := t.default_class_type }) ∧
    (∀ (t : CppTypeData) (bm : CppMethod),
      (inheritClone t bm).include_file = t.include_file ∧
      (inheritClone t bm).origin_location = Option.none ∧
      (inheritClone t bm).name = bm.name ∧
      (inheritClone t bm).return_type = bm.return_type ∧
      (inheritClone t bm).arguments = bm.arguments ∧
      (inheritClone t bm).operator = bm.operator) ∧
    exInheritData.add_inherited_methods 4 =
      some ⟨[exBaseT, exDerivedT, exOnlyDerivedT],
        [exBaseM, exDerivedM, inheritClone exOnlyDerivedT exBaseM], []⟩ ∧
    (inheritClone exOnlyDerivedT exBaseM).class_membership = some
      { class_type := CppTypeBase.cls "OnlyDerived" Option.none, kind := CppMethodKind.regular
        is_virtual := false, is_pure_virtual := false, is_const := false, is_static := false
        visibility := CppVisibility.pub, is_signal := false } := by
  refine ⟨?_, ?_, ?_, by decide, by decide⟩
  · intro d base_name
    refine ⟨rfl, rfl, rfl, ?_⟩
    intro m
    unfold CppData.add_inherited_methods_from_step
    simp only [List.mem_append, List.mem_flatMap, List.mem_filter, List.mem_map,
      List.any_eq_true, Bool.not_eq_true', Bool.and_eq_true, beq_iff_eq,
      List.any_eq_false]
    constructor
    · rintro (hm | ⟨t, ⟨ht, hinh⟩, bm, ⟨⟨hbm, hinherit⟩, hnone⟩, rfl⟩)
      · exact Or.inl hm
      · refine Or.inr ⟨t, ht, hinh, bm, hbm, hinherit, ?_, rfl⟩
        rintro ⟨m2, hm2, hcn, hname⟩
        have := hnone m2 hm2
        simp [hcn, hname] at this
    · rintro (hm | ⟨t, ht, hinh, bm, hbm, hinherit, hnone, rfl⟩)
      · exact Or.inl hm
      · refine Or.inr ⟨t, ⟨ht, hinh⟩, bm, ⟨⟨hbm, hinherit⟩, ?_⟩, rfl⟩
        intro m2 hm2
        by_cases hcn : m2.class_name = some t.name
        · by_cases hname : m2.name = bm.name
          · exact absurd ⟨m2, hm2, hcn, hname⟩ hnone
          · simp [hname]
        · simp [hcn]
  · intro t bm i hi
    unfold inheritClone
    rw [hi]
    rfl
  · intro t bm
    exact ⟨rfl, rfl, rfl, rfl, rfl, rfl⟩

/-- Witness for C5 at a concrete input: membership of the rebound clone in
the step output on the scenario model, and the clone-shape clause at
`OnlyDerived`/`Base::m`. -/
theorem c5_inherited_method_cloning_witness :
    inheritClone exOnlyDerivedT exBaseM ∈
      (exInheritData.add_inherited_methods_from_step "Base").1.methods ∧
    (inheritClone exOnlyDerivedT exBaseM).include_file = "od.h" := by
  constructor
  · rw [(c5_inherited_method_cloning.1 exInheritData "Base").2.2.2]
    refine Or.inr ⟨exOnlyDerivedT, by decide, by decide, exBaseM, by decide, by decide, ?_, rfl⟩
    rintro ⟨m2, hm2, hcn, hname⟩
    simp only [CppData.methods, exInheritData, List.mem_cons,
      List.not_mem_nil, or_false] at hm2
    rcases hm2 with rfl | rfl
    · revert hcn
      decide
    · revert hcn
      decide
  · exact (c5_inherited_method_cloning.2.2.1 exOnlyDerivedT exBaseM).1

end Ritual

namespace Ritual

theorem addInheritedMethodsFromFuel_types :
    ∀ (fuel : Nat) (d : CppData) (b : String) (d' : CppData),
      addInheritedMethodsFromFuel fuel d b = some d' → d'.types = d.types := by
  intro fuel
  induction fuel with
  | zero => intro d b d' h; cases h
  | succ fuel ih =>
    intro d b d' h
    rw [addInheritedMethodsFromFuel] at h
    have haux : ∀ (l : List String) (acc : CppData) (res : CppData),
        l.foldlM (fun acc name => addInheritedMethodsFromFuel fuel acc name) acc = some res →
        res.types = acc.types := by
      intro l
      induction l with
      | nil => intro acc res hres; cases hres; rfl
      | cons x xs ihl =>
        intro acc res hres
        rw [List.foldlM_cons] at hres
        rcases hstep : addInheritedMethodsFromFuel fuel acc x with _ | a
        · rw [hstep] at hres; cases hres
        · rw [hstep] at hres
          simp only [Option.bind_eq_bind, Option.some_bind] at hres
          rw [ihl a res hres, ih acc x a hstep]
    have := haux _ _ _ h
    rw [this]
    rfl

theorem addInheritedMethodsFromFuel_total
    (T : List CppTypeData) (rank : String → Nat)
    (hr : ∀ t ∈ T, ∀ b : String, t.inherits b = true → rank t.name < rank b) :
    ∀ (fuel : Nat) (d : CppData) (b : String), d.types = T → rank b < fuel →
      ∃ d', addInheritedMethodsFromFuel fuel d b = some d' ∧ d'.types = T := by
  intro fuel
  induction fuel with
  | zero => intro d b hT hb; omega
  | succ fuel ih =>
    intro d b hT hb
    rw [addInheritedMethodsFromFuel]
    have hnames : ∀ n ∈ (d.add_inherited_methods_from_step b).2, rank n < fuel := by
      intro n hn
      unfold CppData.add_inherited_methods_from_step at hn
      simp only [List.mem_map, List.mem_filter] at hn
      obtain ⟨t, ⟨ht, hinh⟩, rfl⟩ := hn
      have h1 : rank t.name < rank b := hr t (hT ▸ ht) b hinh
      omega
    have hT1 : (d.add_inherited_methods_from_step b).1.types = T := hT
    have haux : ∀ (l : List String), (∀ n ∈ l, rank n < fuel) →
        ∀ (acc : CppData), acc.types = T →
        ∃ res, l.foldlM (fun acc name => addInheritedMethodsFromFuel fuel acc name) acc =
          some res ∧ res.types = T := by
      intro l
      induction l with
      | nil => intro _ acc hacc; exact ⟨acc, rfl, hacc⟩
      | cons x xs ihl =>
        intro hl acc hacc
        obtain ⟨a, ha, haT⟩ := ih acc x hacc (hl x (List.mem_cons_self _ _))
        obtain ⟨res, hres, hresT⟩ :=
          ihl (fun n hn => hl n (List.mem_cons_of_mem _ hn)) a haT
        refine ⟨res, ?_, hresT⟩
        rw [List.foldlM_cons, ha]
        simpa using hres
    exact haux _ hnames _ hT1

/-- C10: `add_inherited_methods` terminates on every model whose
direct-derivation relation admits a rank function that strictly decreases
from derived class to base class — for the finitely many type names of a
model this is acyclicity of the relation —, and any fuel exceeding every
type name's rank suffices: the recursion, which carries no visited set,
then completes and returns a model. -/
theorem c10_add_inherited_methods_total
    (d : CppData) (rank : String → Nat) (fuel : Nat)
    (hr : ∀ t ∈ d.types, ∀ b : String, t.inherits b = true → rank t.name < rank b)
    (hf : ∀ t ∈ d.types, rank t.name < fuel) :
    ∃ d', d.add_inherited_methods fuel = some d' ∧ d'.types = d.types := by
  unfold CppData.add_inherited_methods
  have haux : ∀ (l : List String), (∀ n ∈ l, rank n < fuel) →
      ∀ (acc : CppData), acc.types = d.types →
      ∃ res, l.foldlM (fun acc name => addInheritedMethodsFromFuel fuel acc name) acc =
        some res ∧ res.types = d.types := by
    intro l
    induction l with
    | nil => intro _ acc hacc; exact ⟨acc, rfl, hacc⟩
    | cons x xs ihl =>
      intro hl acc hacc
      obtain ⟨a, ha, haT⟩ := addInheritedMethodsFromFuel_total d.types rank hr fuel acc x hacc
        (hl x (List.mem_cons_self _ _))
      obtain ⟨res, hres, hresT⟩ := ihl (fun n hn => hl n (List.mem_cons_of_mem _ hn)) a haT
      refine ⟨res, ?_, hresT⟩
      rw [List.foldlM_cons, ha]
      simpa using hres
  refine haux _ ?_ d rfl
  intro n hn
  simp only [List.mem_map] at hn
  obtain ⟨t, ht, rfl⟩ := hn
  exact hf t ht

/-- Witness for C10 at a concrete input: on the inheritance scenario model a
rank giving `Base` 1 and everything else 0 satisfies both hypotheses with
fuel 2, and the pass completes. -/
theorem c10_add_inherited_methods_total_witness :
    ∃ d', exInheritData.add_inherited_methods 2 = some d' ∧ d'.types = exInheritData.types := by
  refine c10_add_inherited_methods_total exInheritData
    (fun n => if n = "Base" then 1 else 0) 2 ?_ ?_
  · intro t ht b hinh
    have hb : b = "Base" := by
      simp only [exInheritData, CppData.types, List.mem_cons, List.not_mem_nil, or_false] at ht
      rcases ht with rfl | rfl | rfl
      · unfold CppTypeData.inherits exBaseT at hinh
        simp at hinh
      · revert hinh
        unfold CppTypeData.inherits exDerivedT exBaseRef
        simp only [List.any_eq_true, List.mem_singleton]
        rintro ⟨base, rfl, hbeq⟩
        simp only [CppType.base] at hbeq
        exact (beq_iff_eq.mp hbeq).symm
      · revert hinh
        unfold CppTypeData.inherits exOnlyDerivedT exBaseRef
        simp only [List.any_eq_true, List.mem_singleton]
        rintro ⟨base, rfl, hbeq⟩
        simp only [CppType.base] at hbeq
        exact (beq_iff_eq.mp hbeq).symm
    subst hb
    simp only [exInheritData, CppData.types, List.mem_cons, List.not_mem_nil, or_false] at ht
    rcases ht with rfl | rfl | rfl
    · unfold CppTypeData.inherits exBaseT at hinh
      simp at hinh
    · decide
    · decide
  · intro t ht
    simp only [exInheritData, CppData.types, List.mem_cons, List.not_mem_nil, or_false] at ht
    rcases ht with rfl | rfl | rfl <;> decide

end Ritual

namespace Ritual

/-- A bare-identifier string: nonempty and made of word-or-colon characters
only (so it carries no `const ` prefix, no pointer/reference suffix, no
template angle brackets and no `type-parameter-N-M` dashes). -/
def isBareIdentifier (s : String) : Bool :=
  !s.data.isEmpty && s.data.all isWordColonChar

theorem bare_not_startsWith {s p : String} (hw : ∀ c ∈ s.data, isWordColonChar c = true)
    (c : Char) (hc : c ∈ p.data) (hcw : isWordColonChar c = false) :
    strStartsWith s p = false := by
  by_contra h
  rw [Bool.not_eq_false, strStartsWith, beq_iff_eq] at h
  have hmem : c ∈ s.data.take p.data.length := by rw [h]; exact hc
  have := hw c (List.take_subset _ _ hmem)
  rw [this] at hcw
  cases hcw

theorem bare_not_endsWith {s p : String} (hw : ∀ c ∈ s.data, isWordColonChar c = true)
    (c : Char) (hc : c ∈ p.data.reverse) (hcw : isWordColonChar c = false) :
    strEndsWith s p = false := by
  by_contra h
  rw [Bool.not_eq_false, strEndsWith, beq_iff_eq] at h
  have hmem : c ∈ s.data.reverse.take p.data.length := by rw [h]; exact hc
  have hmem2 : c ∈ s.data := List.mem_reverse.mp (List.take_subset _ _ hmem)
  have := hw c hmem2
  rw [this] at hcw
  cases hcw

theorem bare_typeParameterCapture {s : String}
    (hw : ∀ c ∈ s.data, isWordColonChar c = true) :
    typeParameterCapture s = Option.none := by
  unfold typeParameterCapture
  rw [bare_not_startsWith hw '-' (by decide) (by decide)]
  simp

theorem bare_templateClassCapture {s : String}
    (hw : ∀ c ∈ s.data, isWordColonChar c = true) :
    templateClassCapture s = Option.none := by
  unfold templateClassCapture
  have hself : s.data.takeWhile isWordColonChar = s.data :=
    List.takeWhile_eq_self_iff.mpr hw
  simp only [hself, List.drop_length]

/-- C6: corrected.  A bare identifier that fails every earlier step of
`parse_unexposed_type` — it is not `void`, spells no built-in numeric kind,
matches no template-parameter name of the context method or class, and
names no declaration in the store — produces the error "Unexposed type has
a declaration but is too complex"; the error "Unrecognized unexposed type"
arises only on the template form `X<...>` whose head is not a known class. -/
theorem c6_bare_identifier_error
    (types : List CppTypeData) (fuel : Nat) (s : String)
    (context_class context_method : Option (List String))
    (hbare : isBareIdentifier s = true)
    (hv : s ≠ "void")
    (hb : ∀ k ∈ CppBuiltInNumericType.all, k.to_cpp_code ≠ s)
    (hm : ∀ args, context_method = some args → s ∉ args)
    (hc : ∀ args, context_class = some args → s ∉ args)
    (ht : ∀ t ∈ types, t.name ≠ s) :
    parseUnexposedType types (fuel + 1) s context_class context_method =
      Except.error ("Unexposed type has a declaration but is too complex: " ++ s) := by
  rw [isBareIdentifier, Bool.and_eq_true, List.all_eq_true] at hbare
  obtain ⟨-, hw⟩ := hbare
  have h1 : strStartsWith s "const " = false :=
    bare_not_startsWith hw ' ' (by decide) (by decide)
  have h2 : typeParameterCapture s = Option.none := bare_typeParameterCapture hw
  have h3 : strEndsWith s " *" = false := bare_not_endsWith hw ' ' (by decide) (by decide)
  have h4 : strEndsWith s " &" = false := bare_not_endsWith hw ' ' (by decide) (by decide)
  have h5 : (s == "void") = false := beq_eq_false_iff_ne.mpr hv
  have h6 : CppBuiltInNumericType.all.find? (fun x => x.to_cpp_code == s) = Option.none := by
    rw [List.find?_eq_none]
    intro k hk
    exact Bool.not_eq_true _ ▸ beq_eq_false_iff_ne.mpr (hb k hk)
  have h7 : types.find? (fun x => x.name == s) = Option.none := by
    rw [List.find?_eq_none]
    intro t htm
    exact Bool.not_eq_true _ ▸ beq_eq_false_iff_ne.mpr (ht t htm)
  have h8 : templateClassCapture s = Option.none := bare_templateClassCapture hw
  rw [parseUnexposedType, parseUnexposedTypeBody.eq_def]
  simp only [h1, Bool.false_eq_true, if_false, h2, h3, h4, h5, h6, h7, h8]
  have hmethod : (match context_method with
      | some args =>
        if args.isEmpty then ((Option.none : Option Nat), false)
        else (args.findIdx? (fun x => x == s), true)
      | Option.none => ((Option.none : Option Nat), false)).1 = Option.none := by
    rcases context_method with _ | margs
    · rfl
    · simp only
      split
      · rfl
      · rw [List.findIdx?_eq_none_iff]
        intro x hx
        exact beq_eq_false_iff_ne.mpr (fun hxs => hm margs rfl (hxs ▸ hx))
  have hclass : (match context_class with
      | some args => args.findIdx? (fun x => x == s)
      | Option.none => (Option.none : Option Nat)) = Option.none := by
    rcases context_class with _ | cargs
    · rfl
    · simp only
      rw [List.findIdx?_eq_none_iff]
      intro x hx
      exact beq_eq_false_iff_ne.mpr (fun hxs => hc cargs rfl (hxs ▸ hx))
  simp only [hmethod, hclass]
  simp

/-- Counterexample to C6 as stated: the bare identifier `foobar`, with an
empty store and no contexts, satisfies every hypothesis of the claim yet
does NOT produce the "Unrecognized unexposed type" error — the actual error
is "Unexposed type has a declaration but is too complex". -/
theorem c6_counterexample :
    isBareIdentifier "foobar" = true ∧
    parseUnexposedType [] 3 "foobar" Option.none Option.none ≠
      Except.error "Unrecognized unexposed type: foobar" ∧
    parseUnexposedType [] 3 "foobar" Option.none Option.none =
      Except.error "Unexposed type has a declaration but is too complex: foobar" := by
  refine ⟨by decide, by decide, by decide⟩

/-- Witness for C6 at a concrete input: the theorem applied to `foobar`
with fuel 2, empty store, no contexts. -/
theorem c6_bare_identifier_error_witness :
    parseUnexposedType [] 3 "foobar" Option.none Option.none =
      Except.error ("Unexposed type has a declaration but is too complex: " ++ "foobar") :=
  c6_bare_identifier_error [] 2 "foobar" Option.none Option.none (by decide) (by decide)
    (by decide) (by intro args h; cases h) (by intro args h; cases h) (by intro t h; cases h)

end Ritual

namespace Ritual

/-- The destructors bound to the named class. -/
def destructorsFor (methods : List CppMethod) (c : String) : List CppMethod :=
  methods.filter (fun m => m.is_destructor && m.class_name == some c)

theorem destructorsFor_append (methods suffix : List CppMethod) (c : String) :
    destructorsFor (methods ++ suffix) c = destructorsFor methods c ++ destructorsFor suffix c :=
  List.filter_append _ _

theorem hasDestructorFor_iff_length_pos (methods : List CppMethod) (c : String) :
    hasDestructorFor methods c = true ↔ 0 < (destructorsFor methods c).length := by
  unfold hasDestructorFor destructorsFor
  rw [List.any_eq_true, List.length_pos, Ne, List.filter_eq_nil_iff]
  constructor
  · rintro ⟨m, hm, hp⟩ hnone
    exact absurd hp (by simpa using hnone m hm)
  · intro h
    by_contra hn
    push_neg at hn
    exact h (fun m hm => by simpa using hn m hm)

theorem ensure_count_le (T : List CppTypeData) (c : String) :
    ∀ (ts : List CppTypeData) (methods : List CppMethod),
      (destructorsFor methods c).length ≤ 1 →
      (destructorsFor (ts.foldl (ensureStep T) methods) c).length ≤ 1 := by
  intro ts
  induction ts with
  | nil => intro methods h; exact h
  | cons t0 ts ih =>
    intro methods h
    rw [List.foldl_cons]
    rcases hk : t0.kind with values | ⟨sz, bases, fields, ta⟩
    · rw [ensureStep_enum hk]
      exact ih methods h
    · rw [ensureStep_cls hk]
      split
      · exact ih methods h
      · rename_i hnotfound
        apply ih
        rw [destructorsFor_append]
        rw [List.length_append]
        by_cases hname : t0.name = c
        · subst hname
          have hzero : (destructorsFor methods t0.name).length = 0 := by
            by_contra hz
            have hpos : 0 < (destructorsFor methods t0.name).length := Nat.pos_of_ne_zero hz
            exact hnotfound ((hasDestructorFor_iff_length_pos methods t0.name).mpr hpos)
          rw [hzero]
          have : (destructorsFor [synthesizedDestructor T methods t0] t0.name).length ≤ 1 := by
            unfold destructorsFor
            cases hf : List.filter (fun m => m.is_destructor && m.class_name == some t0.name)
              [synthesizedDestructor T methods t0] with
            | nil => simp [hf]
            | cons x xs =>
              have hsub := List.filter_sublist
                (l := [synthesizedDestructor T methods t0])
                (p := fun m => m.is_destructor && m.class_name == some t0.name)
              rw [hf] at hsub
              have := hsub.length_le
              simpa using this
          omega
        · have : destructorsFor [synthesizedDestructor T methods t0] c = [] := by
            unfold destructorsFor
            rw [List.filter_eq_nil_iff]
            intro m hm
            simp only [List.mem_singleton] at hm
            subst hm
            rw [Bool.and_eq_true]
            rintro ⟨-, hcn⟩
            rw [beq_iff_eq] at hcn
            have hsome := synthesizedDestructor_class_name T methods t0
              (by unfold CppTypeData.is_class; rw [hk])
            rw [hsome] at hcn
            exact hname (Option.some.inj hcn)
          rw [this]
          simpa using h

theorem ensure_count_eq_one (d : CppData)
    (h1 : ∀ c : String, (destructorsFor d.methods c).length ≤ 1) :
    ∀ t ∈ d.types, t.is_class = true →
      (destructorsFor d.ensure_explicit_destructors.methods t.name).length = 1 := by
  intro t ht hc
  rw [ensure_explicit_destructors_eq]
  simp only
  have hup := ensure_count_le d.types t.name d.types d.methods (h1 t.name)
  have hlow := (hasDestructorFor_iff_length_pos _ _).mp
    (ensure_establishes d.types d.types d.methods t ht hc)
  omega

end Ritual

namespace Ritual

theorem ensure_fold_mem (T : List CppTypeData) :
    ∀ (ts : List CppTypeData) (methods : List CppMethod) (m : CppMethod),
      m ∈ ts.foldl (ensureStep T) methods →
      m ∈ methods ∨ ∃ ms t, t ∈ ts ∧ t.is_class = true ∧ m = synthesizedDestructor T ms t := by
  intro ts
  induction ts with
  | nil => intro methods m hm; exact Or.inl hm
  | cons t0 ts ih =>
    intro methods m hm
    rw [List.foldl_cons] at hm
    rcases hk : t0.kind with values | ⟨sz, bases, fields, ta⟩
    · rw [ensureStep_enum hk] at hm
      rcases ih methods m hm with h | ⟨ms, t, ht, hc, he⟩
      · exact Or.inl h
      · exact Or.inr ⟨ms, t, List.mem_cons_of_mem _ ht, hc, he⟩
    · rw [ensureStep_cls hk] at hm
      by_cases hfound :
          (methods.any fun m => m.is_destructor && m.class_name == some t0.name) = true
      · rw [if_pos hfound] at hm
        rcases ih methods m hm with h | ⟨ms, t, ht, hc, he⟩
        · exact Or.inl h
        · exact Or.inr ⟨ms, t, List.mem_cons_of_mem _ ht, hc, he⟩
      · rw [if_neg hfound] at hm
        rcases ih _ m hm with h | ⟨ms, t, ht, hc, he⟩
        · rcases List.mem_append.mp h with h | h
          · exact Or.inl h
          · simp only [List.mem_singleton] at h
            exact Or.inr ⟨methods, t0, List.mem_cons_self _ _,
              by unfold CppTypeData.is_class; rw [hk], h⟩
        · exact Or.inr ⟨ms, t, List.mem_cons_of_mem _ ht, hc, he⟩

theorem omittedClones_class_membership (m : CppMethod) :
    ∀ c ∈ m.omittedClones, c.class_membership = m.class_membership := by
  rw [omittedClones_eq]
  intro c hc
  simp only [List.mem_map, List.mem_range] at hc
  obtain ⟨i, _, rfl⟩ := hc
  rfl

theorem is_destructor_of_membership_eq {c m : CppMethod}
    (h : c.class_membership = m.class_membership) : c.is_destructor = m.is_destructor := by
  unfold CppMethod.is_destructor
  rw [h]

theorem class_name_of_membership_eq {c m : CppMethod}
    (h : c.class_membership = m.class_membership) : c.class_name = m.class_name := by
  unfold CppMethod.class_name
  rw [h]

theorem omittedClones_of_no_args {m : CppMethod} (h : m.arguments = []) :
    m.omittedClones = [] := by
  rw [omittedClones_eq, h]
  simp [trailingDefaults]

theorem generate_destructorsFor (d : CppData) (c : String)
    (h2 : ∀ m ∈ d.methods, m.is_destructor = true → m.arguments = []) :
    destructorsFor (d.generate_methods_with_omitted_args).methods c =
      destructorsFor d.methods c := by
  have : (d.generate_methods_with_omitted_args).methods =
      d.methods ++ d.methods.flatMap (fun m => m.omittedClones) := rfl
  rw [this, destructorsFor_append]
  have hnil : destructorsFor (d.methods.flatMap (fun m => m.omittedClones)) c = [] := by
    unfold destructorsFor
    rw [List.filter_eq_nil_iff]
    intro cl hcl
    simp only [List.mem_flatMap] at hcl
    obtain ⟨m, hm, hclm⟩ := hcl
    rw [Bool.and_eq_true]
    rintro ⟨hd, -⟩
    by_cases hmd : m.is_destructor = true
    · rw [omittedClones_of_no_args (h2 m hm hmd)] at hclm
      simp at hclm
    · rw [is_destructor_of_membership_eq (omittedClones_class_membership m cl hclm)] at hd
      exact hmd hd
  rw [hnil, List.append_nil]

theorem generate_types (d : CppData) : (d.generate_methods_with_omitted_args).types = d.types :=
  rfl

theorem ensure_types (d : CppData) : (d.ensure_explicit_destructors).types = d.types := rfl

theorem step_new_methods (d : CppData) (b : String) :
    ∀ m ∈ (d.add_inherited_methods_from_step b).1.methods,
      m ∈ d.methods ∨ ∃ t ∈ d.types, ∃ bm ∈ d.methods,
        isInheritableFrom b bm = true ∧ m = inheritClone t bm := by
  intro m hm
  unfold CppData.add_inherited_methods_from_step at hm
  simp only [List.mem_append, List.mem_flatMap, List.mem_filter, List.mem_map] at hm
  rcases hm with hm | ⟨t, ⟨ht, -⟩, bm, ⟨⟨hbm, hinh⟩, -⟩, rfl⟩
  · exact Or.inl hm
  · exact Or.inr ⟨t, ht, bm, hbm, hinh, rfl⟩

theorem addFrom_data_invariant (Phi : CppData → Prop)
    (hstep : ∀ (dd : CppData) (b : String), Phi dd →
      Phi (dd.add_inherited_methods_from_step b).1) :
    ∀ (fuel : Nat) (d : CppData) (b : String) (d' : CppData),
      Phi d → addInheritedMethodsFromFuel fuel d b = some d' → Phi d' := by
  intro fuel
  induction fuel with
  | zero => intro d b d' _ h; cases h
  | succ fuel ih =>
    intro d b d' hphi h
    rw [addInheritedMethodsFromFuel] at h
    have haux : ∀ (l : List String) (acc : CppData) (res : CppData), Phi acc →
        l.foldlM (fun acc name => addInheritedMethodsFromFuel fuel acc name) acc = some res →
        Phi res := by
      intro l
      induction l with
      | nil => intro acc res hacc hres; cases hres; exact hacc
      | cons x xs ihl =>
        intro acc res hacc hres
        rw [List.foldlM_cons] at hres
        rcases hstepx : addInheritedMethodsFromFuel fuel acc x with _ | a
        · rw [hstepx] at hres; cases hres
        · rw [hstepx] at hres
          simp only [Option.bind_eq_bind, Option.some_bind] at hres
          exact ihl a res (ih acc x a hacc hstepx) hres
    exact haux _ _ _ (hstep d b hphi) h

theorem add_inherited_data_invariant (Phi : CppData → Prop)
    (hstep : ∀ (dd : CppData) (b : String), Phi dd →
      Phi (dd.add_inherited_methods_from_step b).1) (fuel : Nat)
    (d : CppData) (d' : CppData) (hphi : Phi d)
    (h : d.add_inherited_methods fuel = some d') : Phi d' := by
  unfold CppData.add_inherited_methods at h
  have haux : ∀ (l : List String) (acc : CppData) (res : CppData), Phi acc →
      l.foldlM (fun acc name => addInheritedMethodsFromFuel fuel acc name) acc = some res →
      Phi res := by
    intro l
    induction l with
    | nil => intro acc res hacc hres; cases hres; exact hacc
    | cons x xs ihl =>
      intro acc res hacc hres
      rw [List.foldlM_cons] at hres
      rcases hstepx : addInheritedMethodsFromFuel fuel acc x with _ | a
      · rw [hstepx] at hres; cases hres
      · rw [hstepx] at hres
        simp only [Option.bind_eq_bind, Option.some_bind] at hres
        exact ihl a res (addFrom_data_invariant Phi hstep fuel acc x a hacc hstepx) hres
  exact haux _ _ _ hphi h

theorem inheritClone_not_destructor {b : String} {bm : CppMethod}
    (h : isInheritableFrom b bm = true) (t : CppTypeData) :
    (inheritClone t bm).is_destructor = false := by
  unfold isInheritableFrom at h
  rcases hmem : bm.class_membership with _ | info
  · rw [hmem] at h; cases h
  · rw [hmem] at h
    simp only [Bool.and_eq_true, Bool.not_eq_true'] at h
    unfold inheritClone CppMethod.is_destructor
    rw [hmem]
    exact h.1.2

theorem inherited_destructorsFor (c : String) (fuel : Nat)
    (d : CppData) (d' : CppData) (h : d.add_inherited_methods fuel = some d') :
    destructorsFor d'.methods c = destructorsFor d.methods c := by
  have := add_inherited_data_invariant
    (fun dd => destructorsFor dd.methods c = destructorsFor d.methods c) ?_ fuel d d' rfl h
  · exact this
  · intro dd b hphi
    have hdec : (dd.add_inherited_methods_from_step b).1.methods = dd.methods ++
        ((dd.types.filter (fun t => t.inherits b)).flatMap (fun t =>
          ((dd.methods.filter (isInheritableFrom b)).filter (fun bm =>
            !dd.methods.any (fun m => m.class_name == some t.name && m.name == bm.name))).map
            (inheritClone t))) := rfl
    rw [hdec, destructorsFor_append, ← hphi]
    have hnil : destructorsFor
        ((dd.types.filter (fun t => t.inherits b)).flatMap (fun t =>
          ((dd.methods.filter (isInheritableFrom b)).filter (fun bm =>
            !dd.methods.any (fun m => m.class_name == some t.name && m.name == bm.name))).map
            (inheritClone t))) c = [] := by
      unfold destructorsFor
      rw [List.filter_eq_nil_iff]
      intro cl hcl
      simp only [List.mem_flatMap, List.mem_filter, List.mem_map] at hcl
      obtain ⟨t, -, bm, ⟨⟨-, hinh⟩, -⟩, rfl⟩ := hcl
      rw [Bool.and_eq_true]
      rintro ⟨hd, -⟩
      rw [inheritClone_not_destructor hinh t] at hd
      cases hd
    rw [hnil, List.append_nil]

end Ritual

namespace Ritual

/-- C3: assuming at most one destructor per class was parsed (and that parsed
destructors, like all C++ destructors, take no arguments), after
`post_process` every class in the type list has exactly one destructor-kind
callable bound to it; `ensure_explicit_destructors` synthesizes one — name
`~ClassName`, public, non-const, non-static, void return, no arguments,
virtual iff the transitive base search finds a virtual destructor —
precisely for a class lacking one at its processing step, a class that
already has a destructor (the presence check ignores `is_pure_virtual`, so a
pure-virtual destructor counts) receives none, and the later passes leave
the destructor population of every class unchanged. -/
theorem c3_exactly_one_destructor (d : CppData) (fuel : Nat) (d' : CppData)
    (h1 : ∀ c : String, (destructorsFor d.methods c).length ≤ 1)
    (h2 : ∀ m ∈ d.methods, m.is_destructor = true → m.arguments = [])
    (hpp : d.post_process fuel = some d') :
    (∀ t ∈ d'.types, t.is_class = true →
      (destructorsFor d'.methods t.name).length = 1) ∧
    d'.types = d.types ∧
    (∀ c : String, destructorsFor d'.methods c =
      destructorsFor d.ensure_explicit_destructors.methods c) ∧
    (∀ (T : List CppTypeData) (methods : List CppMethod) (t : CppTypeData),
      t.is_class = true →
      (hasDestructorFor methods t.name = true → ensureStep T methods t = methods) ∧
      (hasDestructorFor methods t.name = false →
        ensureStep T methods t = methods ++ [synthesizedDestructor T methods t])) ∧
    (∀ (T : List CppTypeData) (ms : List CppMethod) (t : CppTypeData),
      (synthesizedDestructor T ms t).name = "~" ++ t.name ∧
      (synthesizedDestructor T ms t).return_type = CppType.void ∧
      (synthesizedDestructor T ms t).arguments = [] ∧
      (synthesizedDestructor T ms t).class_membership = some
        { class_type := t.default_class_type
          kind := CppMethodKind.destructor
          is_virtual := hasVirtualDestructorGo T ms (T.length + 1) t.name
          is_pure_virtual := false
          is_const := false
          is_static := false
          visibility := CppVisibility.pub
          is_signal := false }) ∧
    (∀ (methods : List CppMethod) (m : CppMethod) (c : String), m ∈ methods →
      m.is_destructor = true → m.class_name = some c →
      hasDestructorFor methods c = true) := by
  unfold CppData.post_process at hpp
  have h2e : ∀ m ∈ d.ensure_explicit_destructors.methods,
      m.is_destructor = true → m.arguments = [] := by
    intro m hm hd
    rw [ensure_explicit_destructors_eq] at hm
    rcases ensure_fold_mem d.types d.types d.methods m hm with h | ⟨ms, t, -, -, rfl⟩
    · exact h2 m h hd
    · rfl
  have hgen : ∀ c : String,
      destructorsFor (d.ensure_explicit_destructors.generate_methods_with_omitted_args).methods
        c = destructorsFor d.ensure_explicit_destructors.methods c :=
    fun c => generate_destructorsFor d.ensure_explicit_destructors c h2e
  have hinh : ∀ c : String, destructorsFor d'.methods c =
      destructorsFor (d.ensure_explicit_destructors.generate_methods_with_omitted_args).methods
        c :=
    fun c => inherited_destructorsFor c fuel _ d' hpp
  have htypes : d'.types = d.types := by
    exact add_inherited_data_invariant (fun dd => dd.types = d.types)
      (fun dd b h => h) fuel
      d.ensure_explicit_destructors.generate_methods_with_omitted_args d' rfl hpp
  refine ⟨?_, htypes, fun c => (hinh c).trans (hgen c), ?_, ?_, ?_⟩
  · intro t ht hc
    rw [htypes] at ht
    rw [hinh t.name, hgen t.name]
    exact ensure_count_eq_one d h1 t ht hc
  · intro T methods t hc
    unfold CppTypeData.is_class at hc
    rcases hk : t.kind with values | ⟨sz, bases, fields, ta⟩
    · rw [hk] at hc; cases hc
    · constructor
      · intro hfound
        unfold hasDestructorFor at hfound
        rw [ensureStep_cls hk, if_pos hfound]
      · intro hnot
        unfold hasDestructorFor at hnot
        rw [ensureStep_cls hk, if_neg ?_]
        intro habs
        rw [habs] at hnot
        cases hnot
  · intro T ms t
    exact ⟨rfl, rfl, rfl, rfl⟩
  · intro methods m c hm hd hcn
    unfold hasDestructorFor
    rw [List.any_eq_true]
    exact ⟨m, hm, by rw [Bool.and_eq_true, hd]; exact ⟨rfl, by rw [hcn]; simp⟩⟩

/-- Witness for C3 at a concrete input: the single-class model with no parsed
methods, fuel 1. -/
theorem c3_exactly_one_destructor_witness :
    (destructorsFor
      ((CppData.post_process 1 ⟨[exBaseT], [], []⟩).getD CppData.empty).methods
      "Base").length = 1 := by
  have hpost : CppData.post_process 1 ⟨[exBaseT], [], []⟩ =
      some ((CppData.post_process 1 ⟨[exBaseT], [], []⟩).getD CppData.empty) := by decide
  have h := c3_exactly_one_destructor ⟨[exBaseT], [], []⟩ 1 _
    (fun c => by simp [destructorsFor, CppData.methods])
    (fun m hm => by simp [CppData.methods] at hm) hpost
  exact h.1 exBaseT (by rw [h.2.1]; decide) (by decide)

end Ritual

namespace Ritual

/-- Return type and all argument types pass the integrity check against `T`. -/
def returnArgsOk (T : List CppTypeData) (m : CppMethod) : Prop :=
  check_type_integrity T m.return_type = Except.ok () ∧
  ∀ a ∈ m.arguments, check_type_integrity T a.argument_type = Except.ok ()

/-- The owning class type, when present, is the default class type of some
declaration in `T` (what `parse_function` establishes at cpp_parser.rs:843
and what the post-processing clones re-establish). -/
def membershipFromTypes (T : List CppTypeData) (m : CppMethod) : Prop :=
  ∀ cm, m.class_membership = some cm → ∃ t ∈ T, cm.class_type = t.default_class_type

theorem check_integrity_mem {T : List CppTypeData} {methods : List CppMethod} {m : CppMethod}
    (h : m ∈ check_integrity T methods) : m ∈ methods ∧ returnArgsOk T m := by
  unfold check_integrity at h
  rw [List.mem_filter] at h
  obtain ⟨hmem, hp⟩ := h
  rw [Bool.and_eq_true] at hp
  obtain ⟨hret, hargs⟩ := hp
  refine ⟨hmem, ?_, ?_⟩
  · rcases hr : check_type_integrity T m.return_type with msg | u
    · rw [hr] at hret; cases hret
    · cases u; rfl
  · intro a ha
    have := (List.all_eq_true.mp hargs) a ha
    rcases hr : check_type_integrity T a.argument_type with msg | u
    · rw [hr] at this; cases this
    · cases u; rfl

theorem checkTypeIntegrityList_ok {T : List CppTypeData} :
    ∀ {l : List CppType}, (∀ x ∈ l, check_type_integrity T x = Except.ok ()) →
      checkTypeIntegrityList T l = Except.ok () := by
  intro l
  induction l with
  | nil => intro _; rfl
  | cons x xs ih =>
    intro h
    rw [checkTypeIntegrityList]
    rw [h x (List.mem_cons_self _ _)]
    exact ih (fun y hy => h y (List.mem_cons_of_mem _ hy))

theorem default_class_type_ok {T : List CppTypeData} {t : CppTypeData} (ht : t ∈ T) :
    check_type_integrity T
      (CppType.mk false CppTypeIndirection.none t.default_class_type) = Except.ok () := by
  unfold CppTypeData.default_class_type
  rcases hk : t.kind with values | ⟨sz, bases, fields, ta⟩
  · rfl
  · simp only
    rw [check_type_integrity.eq_def]
    simp only
    have hfind : (T.find? (fun x => x.name == t.name)).isNone = false := by
      have hsome : (T.find? (fun x => x.name == t.name)).isSome = true :=
        List.find?_isSome.mpr ⟨t, ht, by simp⟩
      rcases hf : T.find? (fun x => x.name == t.name) with _ | v
      · rw [hf] at hsome; cases hsome
      · rw [hf]; rfl
    rw [if_neg (by rw [hfind]; exact fun hc => Bool.false_ne_true hc)]
    unfold CppTypeData.default_template_parameters
    rw [hk]
    rcases ta with _ | strings
    · rfl
    · simp only
      apply checkTypeIntegrityList_ok
      intro x hx
      simp only [List.mem_map, List.mem_range] at hx
      obtain ⟨i, -, rfl⟩ := hx
      rfl

theorem omittedClones_fields (m : CppMethod) :
    ∀ c ∈ m.omittedClones, c.return_type = m.return_type ∧
      c.class_membership = m.class_membership ∧
      ∃ k, c.arguments = m.arguments.take k := by
  rw [omittedClones_eq]
  intro c hc
  simp only [List.mem_map, List.mem_range] at hc
  obtain ⟨i, -, rfl⟩ := hc
  exact ⟨rfl, rfl, _, rfl⟩

theorem inheritClone_return_type (t : CppTypeData) (bm : CppMethod) :
    (inheritClone t bm).return_type = bm.return_type := rfl

theorem inheritClone_arguments (t : CppTypeData) (bm : CppMethod) :
    (inheritClone t bm).arguments = bm.arguments := rfl

theorem inheritClone_membershipFromTypes {T : List CppTypeData} {t : CppTypeData}
    (htT : t ∈ T) (bm : CppMethod) : membershipFromTypes T (inheritClone t bm) := by
  intro cm hcm
  unfold inheritClone at hcm
  simp only at hcm
  rcases hbm : bm.class_membership with _ | i
  · rw [hbm] at hcm; cases hcm
  · rw [hbm] at hcm
    simp only [Option.map_some'] at hcm
    cases hcm
    exact ⟨t, htT, rfl⟩

/-- C1: every callable surviving the integrity filter and the post-processing
passes has a return type, argument types, and owning class type all of whose
`Class`/`Enum` names resolve (transitively) in the output's type list.  The
hypothesis on the input methods is exactly what `parse_function` establishes
for every parsed method: the owning class type, when present, is the default
class type of a stored declaration. -/
theorem c1_output_integrity (T : List CppTypeData) (methods : List CppMethod)
    (ti : List (String × List (List CppType))) (fuel : Nat) (d' : CppData)
    (hm : ∀ m ∈ methods, membershipFromTypes T m)
    (hpp : CppData.post_process fuel ⟨T, check_integrity T methods, ti⟩ = some d') :
    d'.types = T ∧
    ∀ m ∈ d'.methods,
      check_type_integrity d'.types m.return_type = Except.ok () ∧
      (∀ a ∈ m.arguments, check_type_integrity d'.types a.argument_type = Except.ok ()) ∧
      (∀ cm, m.class_membership = some cm →
        check_type_integrity d'.types
          (CppType.mk false CppTypeIndirection.none cm.class_type) = Except.ok ()) := by
  unfold CppData.post_process at hpp
  set d0 : CppData := ⟨T, check_integrity T methods, ti⟩ with hd0
  have htypes : d'.types = T := by
    exact add_inherited_data_invariant (fun dd => dd.types = T)
      (fun dd b h => h) fuel
      d0.ensure_explicit_destructors.generate_methods_with_omitted_args d' rfl hpp
  have hP0 : ∀ m ∈ d0.methods, returnArgsOk T m ∧ membershipFromTypes T m := by
    intro m hmem
    obtain ⟨hmm, hok⟩ := check_integrity_mem hmem
    exact ⟨hok, hm m hmm⟩
  have hPe : ∀ m ∈ d0.ensure_explicit_destructors.methods,
      returnArgsOk T m ∧ membershipFromTypes T m := by
    intro m hmem
    rw [ensure_explicit_destructors_eq] at hmem
    rcases ensure_fold_mem d0.types d0.types d0.methods m hmem with h | ⟨ms, t, htT, -, rfl⟩
    · exact hP0 m h
    · refine ⟨⟨rfl, ?_⟩, ?_⟩
      · intro a ha
        simp [synthesizedDestructor] at ha
      · intro cm hcm
        cases hcm
        exact ⟨t, htT, rfl⟩
  have hPg : ∀ m ∈
      (d0.ensure_explicit_destructors.generate_methods_with_omitted_args).methods,
      returnArgsOk T m ∧ membershipFromTypes T m := by
    intro m hmem
    have hshape :
        (d0.ensure_explicit_destructors.generate_methods_with_omitted_args).methods =
        d0.ensure_explicit_destructors.methods ++
          d0.ensure_explicit_destructors.methods.flatMap (fun m => m.omittedClones) := rfl
    rw [hshape] at hmem
    rcases List.mem_append.mp hmem with h | h
    · exact hPe m h
    · simp only [List.mem_flatMap] at h
      obtain ⟨m0, hm0, hclone⟩ := h
      obtain ⟨hret, hmemb, k, hargs⟩ := omittedClones_fields m0 m hclone
      obtain ⟨⟨hr0, ha0⟩, hmb0⟩ := hPe m0 hm0
      refine ⟨⟨by rw [hret]; exact hr0, ?_⟩, ?_⟩
      · intro a ha
        rw [hargs] at ha
        exact ha0 a (List.take_subset _ _ ha)
      · intro cm hcm
        rw [hmemb] at hcm
        exact hmb0 cm hcm
  have hPfinal := add_inherited_data_invariant
    (fun dd => dd.types = T ∧ ∀ m ∈ dd.methods, returnArgsOk T m ∧ membershipFromTypes T m)
    ?hstep fuel d0.ensure_explicit_destructors.generate_methods_with_omitted_args d'
    ⟨rfl, hPg⟩ hpp
  case hstep =>
    rintro dd b ⟨hT, hall⟩
    refine ⟨hT, ?_⟩
    intro m hmem
    rcases step_new_methods dd b m hmem with h | ⟨t, htT, bm, hbm, -, rfl⟩
    · exact hall m h
    · obtain ⟨⟨hr0, ha0⟩, -⟩ := hall bm hbm
      refine ⟨⟨?_, ?_⟩, inheritClone_membershipFromTypes (hT ▸ htT) bm⟩
      · rw [inheritClone_return_type]
        exact hr0
      · intro a ha
        rw [inheritClone_arguments] at ha
        exact ha0 a ha
  refine ⟨htypes, ?_⟩
  intro m hmem
  obtain ⟨⟨hr, ha⟩, hmb⟩ := hPfinal.2 m hmem
  rw [htypes]
  refine ⟨hr, ha, ?_⟩
  intro cm hcm
  obtain ⟨t, htT, hct⟩ := hmb cm hcm
  rw [hct]
  exact default_class_type_ok htT

/-- Witness for C1 at a concrete input: the single-class model with its one
parsed member method. -/
theorem c1_output_integrity_witness :
    ((CppData.post_process 1
        ⟨[exBaseT], check_integrity [exBaseT] [exBaseM], []⟩).getD CppData.empty).types =
      [exBaseT] := by
  have hpost : CppData.post_process 1 ⟨[exBaseT], check_integrity [exBaseT] [exBaseM], []⟩ =
      some ((CppData.post_process 1
        ⟨[exBaseT], check_integrity [exBaseT] [exBaseM], []⟩).getD CppData.empty) := by decide
  have h := c1_output_integrity [exBaseT] [exBaseM] [] 1 _ ?_ hpost
  · exact h.1
  · intro m hmm
    simp only [List.mem_singleton] at hmm
    subst hmm
    intro cm hcm
    refine ⟨exBaseT, List.mem_singleton.mpr rfl, ?_⟩
    cases hcm
    decide

end Ritual

namespace Ritual

/-- The partition keys of a header split. -/
def splitKeys (l : List (String × CppData)) : List String := l.map (fun p => p.1)

/-- Partition lookup, defaulting to the empty bundle for an absent key. -/
def splitLookup (l : List (String × CppData)) (k : String) : CppData :=
  ((l.find? (fun p => p.1 == k)).map (fun p => p.2)).getD CppData.empty

theorem anyKey_iff (r : List (String × CppData)) (k : String) :
    r.any (fun p => p.1 == k) = true ↔ k ∈ splitKeys r := by
  rw [List.any_eq_true]
  unfold splitKeys
  rw [List.mem_map]
  constructor
  · rintro ⟨p, hp, hb⟩
    exact ⟨p, hp, beq_iff_eq.mp hb⟩
  · rintro ⟨p, hp, hb⟩
    exact ⟨p, hp, beq_iff_eq.mpr hb⟩

theorem mapUpdate_keys (r : List (String × CppData)) (k : String) (f : CppData → CppData) :
    splitKeys (mapUpdate r k f) = splitKeys r := by
  unfold splitKeys mapUpdate
  rw [List.map_map]
  apply List.map_congr_left
  intro p hp
  simp only [Function.comp]
  split <;> rfl

theorem ensureKey_keys (r : List (String × CppData)) (k : String) :
    splitKeys (ensureKey r k) =
      if k ∈ splitKeys r then splitKeys r else splitKeys r ++ [k] := by
  unfold ensureKey
  by_cases h : k ∈ splitKeys r
  · rw [if_pos ((anyKey_iff r k).mpr h), if_pos h]
  · rw [if_neg (fun hc => h ((anyKey_iff r k).mp hc)), if_neg h]
    unfold splitKeys
    simp

theorem ensureKey_keys_nodup {r : List (String × CppData)} {k : String}
    (h : (splitKeys r).Nodup) : (splitKeys (ensureKey r k)).Nodup := by
  rw [ensureKey_keys]
  split
  · exact h
  · rename_i hk
    rw [List.nodup_append]
    refine ⟨h, List.nodup_singleton _, ?_⟩
    intro a ha hb
    simp only [List.mem_singleton] at hb
    subst hb
    exact hk ha

theorem splitLookup_mapUpdate_ne {r : List (String × CppData)} {k k' : String}
    (h : k' ≠ k) (f : CppData → CppData) :
    splitLookup (mapUpdate r k f) k' = splitLookup r k' := by
  unfold splitLookup mapUpdate
  induction r with
  | nil => rfl
  | cons p r ih =>
    simp only [List.map_cons, List.find?_cons]
    have hhead : ((if (p.1 == k) = true then (p.1, f p.2) else p).1 == k') = (p.1 == k') := by
      split <;> rfl
    rw [hhead]
    cases hpk : (p.1 == k') with
    | true =>
      have hne : (p.1 == k) = false := by
        rw [beq_iff_eq.mp hpk]
        exact beq_eq_false_iff_ne.mpr h
      rw [hne]
      simp
    | false => simpa using ih

theorem splitLookup_mapUpdate_eq (r : List (String × CppData)) (k : String)
    (f : CppData → CppData) :
    splitLookup (mapUpdate r k f) k =
      if k ∈ splitKeys r then f (splitLookup r k) else CppData.empty := by
  unfold splitLookup mapUpdate
  induction r with
  | nil => simp [splitKeys]
  | cons p r ih =>
    simp only [List.map_cons, List.find?_cons]
    have hhead : ((if (p.1 == k) = true then (p.1, f p.2) else p).1 == k) = (p.1 == k) := by
      split <;> rfl
    rw [hhead]
    have hkp : k ∈ splitKeys (p :: r) ↔ p.1 = k ∨ k ∈ splitKeys r := by
      unfold splitKeys
      simp only [List.map_cons, List.mem_cons]
      constructor
      · rintro (h | h)
        · exact Or.inl h.symm
        · exact Or.inr h
      · rintro (h | h)
        · exact Or.inl h.symm
        · exact Or.inr h
    cases hpk : (p.1 == k) with
    | true =>
      rw [if_pos (hkp.mpr (Or.inl (beq_iff_eq.mp hpk)))]
      simp
    | false =>
      rw [ih]
      have hne : ¬ p.1 = k := by simpa using hpk
      by_cases hk : k ∈ splitKeys r
      · rw [if_pos hk, if_pos (hkp.mpr (Or.inr hk))]
      · rw [if_neg hk, if_neg ?_]
        rintro hc
        rcases hkp.mp hc with h | h
        · exact hne h
        · exact hk h

theorem splitLookup_ensureKey_ne {r : List (String × CppData)} {k k' : String} (h : k' ≠ k) :
    splitLookup (ensureKey r k) k' = splitLookup r k' := by
  unfold ensureKey
  split
  · rfl
  · unfold splitLookup
    rw [List.find?_append]
    have : List.find? (fun p => p.1 == k') [(k, CppData.empty)] = Option.none := by
      simp only [List.find?_singleton]
      rw [if_neg]
      intro hc
      exact h (beq_iff_eq.mp hc).symm
    rw [this]
    simp

theorem splitLookup_ensureKey_eq (r : List (String × CppData)) (k : String) :
    splitLookup (ensureKey r k) k =
      if k ∈ splitKeys r then splitLookup r k else CppData.empty := by
  unfold ensureKey
  by_cases hk : k ∈ splitKeys r
  · rw [if_pos ((anyKey_iff r k).mpr hk), if_pos hk]
  · rw [if_neg (fun hc => hk ((anyKey_iff r k).mp hc)), if_neg hk]
    unfold splitLookup
    rw [List.find?_append]
    have hnone : List.find? (fun p => p.1 == k) r = Option.none := by
      rw [List.find?_eq_none]
      intro p hp hc
      exact hk ((anyKey_iff r k).mp (List.any_eq_true.mpr ⟨p, hp, hc⟩))
    rw [hnone]
    simp

theorem splitKeys_ensureKey_superset (r : List (String × CppData)) (k : String) :
    k ∈ splitKeys (ensureKey r k) := by
  rw [ensureKey_keys]
  split
  · assumption
  · simp

end Ritual

namespace Ritual

theorem splitLookup_not_mem {r : List (String × CppData)} {k : String}
    (h : k ∉ splitKeys r) : splitLookup r k = CppData.empty := by
  unfold splitLookup
  have : List.find? (fun p => p.1 == k) r = Option.none := by
    rw [List.find?_eq_none]
    intro p hp hc
    exact h ((anyKey_iff r k).mp (List.any_eq_true.mpr ⟨p, hp, hc⟩))
  rw [this]
  rfl

theorem splitLookup_ensureKey_self (r : List (String × CppData)) (k : String) :
    splitLookup (ensureKey r k) k = splitLookup r k := by
  rw [splitLookup_ensureKey_eq]
  split
  · rfl
  · rename_i h
    rw [splitLookup_not_mem h]

theorem splitLookup_step_self (r : List (String × CppData)) (k : String)
    (f : CppData → CppData) :
    splitLookup (mapUpdate (ensureKey r k) k f) k = f (splitLookup r k) := by
  rw [splitLookup_mapUpdate_eq, if_pos (splitKeys_ensureKey_superset r k),
    splitLookup_ensureKey_self]

theorem splitLookup_step_ne {k k' : String} (h : k' ≠ k) (r : List (String × CppData))
    (f : CppData → CppData) :
    splitLookup (mapUpdate (ensureKey r k) k f) k' = splitLookup r k' := by
  rw [splitLookup_mapUpdate_ne h, splitLookup_ensureKey_ne h]

theorem splitKeys_step_nodup {r : List (String × CppData)} {k : String}
    (h : (splitKeys r).Nodup) (f : CppData → CppData) :
    (splitKeys (mapUpdate (ensureKey r k) k f)).Nodup := by
  rw [mapUpdate_keys]
  exact ensureKey_keys_nodup h

/-- The `template_instantiations` contents of the partition keyed `h`, as a
function of the processed type list (mirrors the per-type conditional insert
of `split_by_headers`). -/
def partTI (dTI : List (String × List (List CppType))) (pt : List CppTypeData) (h : String) :
    List (String × List (List CppType)) :=
  pt.foldl (fun acc t =>
    match t.kind with
    | CppTypeKind.cls _ _ _ _ =>
      match tiLookup dTI t.name with
      | some ins => if t.include_file == h then tiInsertEntry t.name ins acc else acc
      | Option.none => acc
    | _ => acc) []

theorem partTI_append (dTI : List (String × List (List CppType))) (pt : List CppTypeData)
    (t : CppTypeData) (h : String) :
    partTI dTI (pt ++ [t]) h =
      (match t.kind with
      | CppTypeKind.cls _ _ _ _ =>
        match tiLookup dTI t.name with
        | some ins => if t.include_file == h then tiInsertEntry t.name ins (partTI dTI pt h)
            else partTI dTI pt h
        | Option.none => partTI dTI pt h
      | _ => partTI dTI pt h) := by
  unfold partTI
  rw [List.foldl_append]
  rfl

/-- Characterization of the methods fold of `split_by_headers`
(cpp_parser.rs caller side: cpp_data.rs:212-217). -/
theorem split_fold1_char :
    ∀ (ms : List CppMethod) (r : List (String × CppData)) (processed : List CppMethod),
      (splitKeys r).Nodup →
      (∀ h, (splitLookup r h).methods = processed.filter (fun m => m.include_file == h)) →
      (∀ h, (splitLookup r h).types = []) →
      (∀ h, (splitLookup r h).template_instantiations = []) →
      (splitKeys (ms.foldl (fun r m =>
        mapUpdate (ensureKey r m.include_file) m.include_file
          (fun c => { c with methods := c.methods ++ [m] })) r)).Nodup ∧
      (∀ h, (splitLookup (ms.foldl (fun r m =>
        mapUpdate (ensureKey r m.include_file) m.include_file
          (fun c => { c with methods := c.methods ++ [m] })) r) h).methods =
        (processed ++ ms).filter (fun m => m.include_file == h)) ∧
      (∀ h, (splitLookup (ms.foldl (fun r m =>
        mapUpdate (ensureKey r m.include_file) m.include_file
          (fun c => { c with methods := c.methods ++ [m] })) r) h).types = []) ∧
      (∀ h, (splitLookup (ms.foldl (fun r m =>
        mapUpdate (ensureKey r m.include_file) m.include_file
          (fun c => { c with methods := c.methods ++ [m] })) r) h).template_instantiations =
        []) := by
  intro ms
  induction ms with
  | nil =>
    intro r processed hnd hm htp hti
    refine ⟨hnd, ?_, htp, hti⟩
    intro h
    rw [List.append_nil]
    exact hm h
  | cons m ms ih =>
    intro r processed hnd hm htp hti
    simp only [List.foldl_cons]
    have hstep := ih (mapUpdate (ensureKey r m.include_file) m.include_file
      (fun c => { c with methods := c.methods ++ [m] })) (processed ++ [m])
      (splitKeys_step_nodup hnd _) ?_ ?_ ?_
    · refine ⟨hstep.1, ?_, hstep.2.2.1, hstep.2.2.2⟩
      intro h
      rw [hstep.2.1 h]
      rw [List.append_assoc]
      rfl
    · intro h
      by_cases hh : h = m.include_file
      · subst hh
        rw [splitLookup_step_self]
        simp only
        rw [hm m.include_file, List.filter_append]
        congr 1
        simp
      · rw [splitLookup_step_ne hh]
        rw [hm h, List.filter_append]
        have : List.filter (fun mm => mm.include_file == h) [m] = [] := by
          simp only [List.filter_eq_nil_iff]
          intro mm hmm
          simp only [List.mem_singleton] at hmm
          subst hmm
          simp only [beq_iff_eq]
          intro hc
          exact hh hc.symm
        rw [this, List.append_nil]
    · intro h
      by_cases hh : h = m.include_file
      · subst hh
        rw [splitLookup_step_self]
        exact htp _
      · rw [splitLookup_step_ne hh]
        exact htp h
    · intro h
      by_cases hh : h = m.include_file
      · subst hh
        rw [splitLookup_step_self]
        exact hti _
      · rw [splitLookup_step_ne hh]
        exact hti h

end Ritual

namespace Ritual

theorem splitLookup_mapUpdate_mem {r : List (String × CppData)} {k : String}
    (hk : k ∈ splitKeys r) (f : CppData → CppData) :
    splitLookup (mapUpdate r k f) k = f (splitLookup r k) := by
  rw [splitLookup_mapUpdate_eq, if_pos hk]

/-- Characterization of the types fold of `split_by_headers`
(cpp_data.rs:218-231). -/
theorem split_fold2_char (dTI : List (String × List (List CppType)))
    (M : String → List CppMethod) :
    ∀ (ts : List CppTypeData) (r : List (String × CppData)) (processed : List CppTypeData),
      (splitKeys r).Nodup →
      (∀ h, (splitLookup r h).methods = M h) →
      (∀ h, (splitLookup r h).types = processed.filter (fun t => t.include_file == h)) →
      (∀ h, (splitLookup r h).template_instantiations = partTI dTI processed h) →
      (splitKeys (ts.foldl (fun r t =>
        let r2 := mapUpdate (ensureKey r t.include_file) t.include_file
          (fun c => { c with types := c.types ++ [t] })
        match t.kind with
        | CppTypeKind.cls _ _ _ _ =>
          match tiLookup dTI t.name with
          | some ins => mapUpdate r2 t.include_file
              (fun c =>
                { c with
                  template_instantiations := tiInsertEntry t.name ins c.template_instantiations })
          | Option.none => r2
        | _ => r2) r)).Nodup ∧
      (∀ h, (splitLookup (ts.foldl (fun r t =>
        let r2 := mapUpdate (ensureKey r t.include_file) t.include_file
          (fun c => { c with types := c.types ++ [t] })
        match t.kind with
        | CppTypeKind.cls _ _ _ _ =>
          match tiLookup dTI t.name with
          | some ins => mapUpdate r2 t.include_file
              (fun c =>
                { c with
                  template_instantiations := tiInsertEntry t.name ins c.template_instantiations })
          | Option.none => r2
        | _ => r2) r) h).methods = M h) ∧
      (∀ h, (splitLookup (ts.foldl (fun r t =>
        let r2 := mapUpdate (ensureKey r t.include_file) t.include_file
          (fun c => { c with types := c.types ++ [t] })
        match t.kind with
        | CppTypeKind.cls _ _ _ _ =>
          match tiLookup dTI t.name with
          | some ins => mapUpdate r2 t.include_file
              (fun c =>
                { c with
                  template_instantiations := tiInsertEntry t.name ins c.template_instantiations })
          | Option.none => r2
        | _ => r2) r) h).types = (processed ++ ts).filter (fun t => t.include_file == h)) ∧
      (∀ h, (splitLookup (ts.foldl (fun r t =>
        let r2 := mapUpdate (ensureKey r t.include_file) t.include_file
          (fun c => { c with types := c.types ++ [t] })
        match t.kind with
        | CppTypeKind.cls _ _ _ _ =>
          match tiLookup dTI t.name with
          | some ins => mapUpdate r2 t.include_file
              (fun c =>
                { c with
                  template_instantiations := tiInsertEntry t.name ins c.template_instantiations })
          | Option.none => r2
        | _ => r2) r) h).template_instantiations = partTI dTI (processed ++ ts) h) := by
  intro ts
  induction ts with
  | nil =>
    intro r processed hnd hm htp hti
    refine ⟨hnd, hm, ?_, ?_⟩
    · intro h
      rw [List.append_nil]
      exact htp h
    · intro h
      rw [List.append_nil]
      exact hti h
  | cons t ts ih =>
    intro r processed hnd hm htp hti
    simp only [List.foldl_cons]
    rw [List.append_cons processed t ts]
    set r2 := mapUpdate (ensureKey r t.include_file) t.include_file
      (fun c => { c with types := c.types ++ [t] }) with hr2
    have hr2nd : (splitKeys r2).Nodup := splitKeys_step_nodup hnd _
    have hr2m : ∀ h, (splitLookup r2 h).methods = M h := by
      intro h
      by_cases hh : h = t.include_file
      · subst hh
        rw [hr2, splitLookup_step_self]
        exact hm _
      · rw [hr2, splitLookup_step_ne hh]
        exact hm h
    have hr2tp : ∀ h, (splitLookup r2 h).types =
        (processed ++ [t]).filter (fun t => t.include_file == h) := by
      intro h
      rw [List.filter_append]
      by_cases hh : h = t.include_file
      · subst hh
        rw [hr2, splitLookup_step_self]
        simp only
        rw [htp t.include_file]
        congr 1
        simp
      · rw [hr2, splitLookup_step_ne hh, htp h]
        have : List.filter (fun tt => tt.include_file == h) [t] = [] := by
          simp only [List.filter_eq_nil_iff]
          intro tt htt
          simp only [List.mem_singleton] at htt
          subst htt
          simp only [beq_iff_eq]
          intro hc
          exact hh hc.symm
        rw [this, List.append_nil]
    have hr2ti : ∀ h, (splitLookup r2 h).template_instantiations = partTI dTI processed h := by
      intro h
      by_cases hh : h = t.include_file
      · subst hh
        rw [hr2, splitLookup_step_self]
        exact hti _
      · rw [hr2, splitLookup_step_ne hh]
        exact hti h
    have hfmem : t.include_file ∈ splitKeys r2 := by
      rw [hr2, mapUpdate_keys]
      exact splitKeys_ensureKey_superset r t.include_file
    rcases hk : t.kind with values | ⟨sz, bases, fields, ta⟩
    · simp only [hk]
      refine ih r2 (processed ++ [t]) hr2nd hr2m hr2tp ?_
      intro h
      rw [partTI_append, hk]
      exact hr2ti h
    · simp only [hk]
      rcases hlk : tiLookup dTI t.name with _ | ins
      · simp only
        refine ih r2 (processed ++ [t]) hr2nd hr2m hr2tp ?_
        intro h
        rw [partTI_append, hk, hlk]
        exact hr2ti h
      · simp only
        refine ih _ (processed ++ [t]) ?_ ?_ ?_ ?_
        · rw [mapUpdate_keys]
          exact hr2nd
        · intro h
          by_cases hh : h = t.include_file
          · subst hh
            rw [splitLookup_mapUpdate_mem hfmem]
            exact hr2m _
          · rw [splitLookup_mapUpdate_ne hh]
            exact hr2m h
        · intro h
          by_cases hh : h = t.include_file
          · subst hh
            rw [splitLookup_mapUpdate_mem hfmem]
            exact hr2tp _
          · rw [splitLookup_mapUpdate_ne hh]
            exact hr2tp h
        · intro h
          rw [partTI_append, hk, hlk]
          by_cases hh : h = t.include_file
          · subst hh
            rw [splitLookup_mapUpdate_mem hfmem]
            simp only
            rw [hr2ti t.include_file]
            rw [if_pos (by simp)]
          · rw [splitLookup_mapUpdate_ne hh]
            rw [hr2ti h]
            have hcond : ¬ ((t.include_file == h) = true) := by
              simp only [beq_iff_eq]
              intro hc
              exact hh hc.symm
            show partTI dTI processed h =
              if (t.include_file == h) = true then
                tiInsertEntry t.name ins (partTI dTI processed h)
              else partTI dTI processed h
            rw [if_neg hcond]

end Ritual

namespace Ritual

theorem splitKeys_cons (q : String × CppData) (S : List (String × CppData)) :
    splitKeys (q :: S) = q.1 :: splitKeys S := rfl

theorem splitLookup_of_mem {S : List (String × CppData)} (hnd : (splitKeys S).Nodup)
    {p : String × CppData} (hp : p ∈ S) : splitLookup S p.1 = p.2 := by
  induction S with
  | nil => cases hp
  | cons q S ih =>
    rw [splitKeys_cons, List.nodup_cons] at hnd
    rw [List.mem_cons] at hp
    rcases hp with hp | hp
    · subst hp
      unfold splitLookup
      rw [List.find?_cons]
      have : (p.1 == p.1) = true := beq_iff_eq.mpr rfl
      rw [this]
      rfl
    · have hkey : p.1 ∈ splitKeys S := List.mem_map.mpr ⟨p, hp, rfl⟩
      have hne : (q.1 == p.1) = false := by
        rw [beq_eq_false_iff_ne]
        intro hc
        rw [hc] at hnd
        exact hnd.1 hkey
      unfold splitLookup
      rw [List.find?_cons, hne]
      exact ih hnd.2 hp

theorem mem_of_key_split {S : List (String × CppData)} (hnd : (splitKeys S).Nodup)
    {h : String} (hk : h ∈ splitKeys S) : (h, splitLookup S h) ∈ S := by
  unfold splitKeys at hk
  rw [List.mem_map] at hk
  obtain ⟨p, hp, he⟩ := hk
  subst he
  rw [splitLookup_of_mem hnd hp]
  exact hp

/-- Per-element count of a flat concatenation of per-key filters of a common
source list: an element's total count is its source count when its key is among
the (distinct) partition keys, and `0` otherwise. -/
theorem count_union_filter {α : Type} [DecidableEq α] (key : α → String) (D : List α) :
    ∀ (S : List (String × CppData)) (F : String × CppData → List α),
      (splitKeys S).Nodup →
      (∀ p ∈ S, F p = D.filter (fun a => key a == p.1)) →
      ∀ a : α, (S.flatMap F).count a =
        if key a ∈ splitKeys S then D.count a else 0 := by
  intro S
  induction S with
  | nil =>
    intro F _ _ a
    simp [splitKeys]
  | cons p S ih =>
    intro F hnd hF a
    rw [splitKeys_cons, List.nodup_cons] at hnd
    rw [List.flatMap_cons, List.count_append, hF p (List.mem_cons_self p S),
      ih F hnd.2 (fun q hq => hF q (List.mem_cons_of_mem p hq)) a]
    by_cases hk : key a = p.1
    · rw [@List.count_filter α _ _ (fun x => key x == p.1) a D (beq_iff_eq.mpr hk)]
      have hnot : key a ∉ splitKeys S := by
        rw [hk]
        exact hnd.1
      rw [if_neg hnot, if_pos (by rw [splitKeys_cons, hk]; exact List.mem_cons_self _ _)]
      exact Nat.add_zero _
    · have h0 : (D.filter (fun a => key a == p.1)).count a = 0 := by
        rw [List.count_eq_zero]
        intro hmem
        rw [List.mem_filter] at hmem
        exact hk (beq_iff_eq.mp hmem.2)
      rw [h0, Nat.zero_add, splitKeys_cons]
      by_cases hk2 : key a ∈ splitKeys S
      · rw [if_pos hk2, if_pos (List.mem_cons_of_mem _ hk2)]
      · rw [if_neg hk2, if_neg ?_]
        rw [List.mem_cons]
        rintro (hc | hc)
        · exact hk hc
        · exact hk2 hc

end Ritual

namespace Ritual

/-- The keys of a `template_instantiations` association list. -/
def tiKeys (l : List (String × List (List CppType))) : List String := l.map (fun p => p.1)

theorem tiKeys_cons (q : String × List (List CppType))
    (l : List (String × List (List CppType))) : tiKeys (q :: l) = q.1 :: tiKeys l := rfl

theorem tiAnyKey_iff (l : List (String × List (List CppType))) (k : String) :
    l.any (fun p => p.1 == k) = true ↔ k ∈ tiKeys l := by
  rw [List.any_eq_true]
  unfold tiKeys
  rw [List.mem_map]
  constructor
  · rintro ⟨p, hp, hb⟩
    exact ⟨p, hp, beq_iff_eq.mp hb⟩
  · rintro ⟨p, hp, hb⟩
    exact ⟨p, hp, beq_iff_eq.mpr hb⟩

theorem tiLookup_eq_some_mem {l : List (String × List (List CppType))} {k : String}
    {v : List (List CppType)} (h : tiLookup l k = some v) : (k, v) ∈ l := by
  unfold tiLookup at h
  cases hf : l.find? (fun p => p.1 == k) with
  | none => rw [hf] at h; cases h
  | some p =>
    rw [hf] at h
    have h2 : p.2 = v := Option.some.inj h
    have hfind := List.find?_some hf
    have hpk : p.1 = k := beq_iff_eq.mp hfind
    have hmem := List.mem_of_find?_eq_some hf
    rw [← hpk, ← h2]
    exact hmem

theorem tiLookup_of_mem {l : List (String × List (List CppType))}
    (hnd : (tiKeys l).Nodup) {k : String} {v : List (List CppType)}
    (hm : (k, v) ∈ l) : tiLookup l k = some v := by
  induction l with
  | nil => cases hm
  | cons q l ih =>
    rw [tiKeys_cons, List.nodup_cons] at hnd
    rw [List.mem_cons] at hm
    rcases hm with hm | hm
    · subst hm
      unfold tiLookup
      rw [List.find?_cons]
      have hq : ((k, v).1 == k) = true := beq_iff_eq.mpr rfl
      rw [hq]
      rfl
    · have hkey : k ∈ tiKeys l := List.mem_map.mpr ⟨(k, v), hm, rfl⟩
      have hne : (q.1 == k) = false := by
        rw [beq_eq_false_iff_ne]
        intro hc
        rw [hc] at hnd
        exact hnd.1 hkey
      unfold tiLookup
      rw [List.find?_cons, hne]
      exact ih hnd.2 hm

theorem tiInsertEntry_keys (k : String) (v : List (List CppType))
    (l : List (String × List (List CppType))) :
    tiKeys (tiInsertEntry k v l) = if k ∈ tiKeys l then tiKeys l else tiKeys l ++ [k] := by
  unfold tiInsertEntry
  by_cases h : k ∈ tiKeys l
  · rw [if_pos ((tiAnyKey_iff l k).mpr h), if_pos h]
    unfold tiKeys
    rw [List.map_map]
    apply List.map_congr_left
    intro p hp
    simp only [Function.comp]
    split <;> rfl
  · rw [if_neg (fun hc => h ((tiAnyKey_iff l k).mp hc)), if_neg h]
    unfold tiKeys
    simp

theorem tiInsertEntry_keys_nodup {l : List (String × List (List CppType))} {k : String}
    (h : (tiKeys l).Nodup) (v : List (List CppType)) :
    (tiKeys (tiInsertEntry k v l)).Nodup := by
  rw [tiInsertEntry_keys]
  split
  · exact h
  · rename_i hk
    rw [List.nodup_append]
    refine ⟨h, List.nodup_singleton _, ?_⟩
    intro a ha hb
    simp only [List.mem_singleton] at hb
    subst hb
    exact hk ha

theorem tiInsertEntry_mem (k : String) (v : List (List CppType))
    (l : List (String × List (List CppType))) (k' : String) (v' : List (List CppType)) :
    (k', v') ∈ tiInsertEntry k v l ↔
      (k' = k ∧ v' = v) ∨ ((k', v') ∈ l ∧ k' ≠ k) := by
  unfold tiInsertEntry
  by_cases h : l.any (fun p => p.1 == k) = true
  · rw [if_pos h, List.mem_map]
    constructor
    · rintro ⟨p, hp, he⟩
      by_cases hpk : (p.1 == k) = true
      · rw [if_pos hpk] at he
        have h1 : p.1 = k' := congrArg Prod.fst he
        have h2 : v = v' := congrArg Prod.snd he
        left
        exact ⟨h1 ▸ beq_iff_eq.mp hpk, h2.symm⟩
      · rw [if_neg hpk] at he
        right
        refine ⟨he ▸ hp, ?_⟩
        intro hc
        apply hpk
        rw [beq_iff_eq]
        have h1 : p.1 = k' := congrArg Prod.fst he
        rw [h1, hc]
    · rintro (⟨hk, hv⟩ | ⟨hmem, hne⟩)
      · subst hk
        subst hv
        obtain ⟨p, hp, hpk⟩ := List.any_eq_true.mp h
        refine ⟨p, hp, ?_⟩
        rw [if_pos hpk, beq_iff_eq.mp hpk]
      · refine ⟨(k', v'), hmem, ?_⟩
        rw [if_neg ?_]
        rw [beq_iff_eq]
        exact hne
  · rw [if_neg h, List.mem_append, List.mem_singleton]
    constructor
    · rintro (hmem | he)
      · right
        refine ⟨hmem, ?_⟩
        intro hc
        apply h
        exact List.any_eq_true.mpr ⟨(k', v'), hmem, beq_iff_eq.mpr hc⟩
      · left
        exact ⟨congrArg Prod.fst he, congrArg Prod.snd he⟩
    · rintro (⟨hk, hv⟩ | ⟨hmem, _⟩)
      · right
        rw [hk, hv]
      · left
        exact hmem

end Ritual

namespace Ritual

theorem partTI_keys_nodup (dTI : List (String × List (List CppType))) (h : String)
    (pt : List CppTypeData) : (tiKeys (partTI dTI pt h)).Nodup := by
  induction pt using List.reverseRecOn with
  | nil => exact List.Pairwise.nil
  | append_singleton pt t ih =>
    rw [partTI_append]
    rcases hk : t.kind with values | ⟨sz, bases, fields, ta⟩
    · exact ih
    · rcases hlk : tiLookup dTI t.name with _ | ins
      · exact ih
      · by_cases hc : (t.include_file == h) = true
        · show (tiKeys (if (t.include_file == h) = true then
            tiInsertEntry t.name ins (partTI dTI pt h) else partTI dTI pt h)).Nodup
          rw [if_pos hc]
          exact tiInsertEntry_keys_nodup ih ins
        · show (tiKeys (if (t.include_file == h) = true then
            tiInsertEntry t.name ins (partTI dTI pt h) else partTI dTI pt h)).Nodup
          rw [if_neg hc]
          exact ih

/-- Membership in the per-partition instantiation list: exactly the input
entries (as lookups) whose key names a processed class-kind type located in
this partition's header. -/
theorem partTI_mem (dTI : List (String × List (List CppType))) (pt : List CppTypeData)
    (h : String) (k : String) (v : List (List CppType)) :
    (k, v) ∈ partTI dTI pt h ↔
      (tiLookup dTI k = some v ∧
        ∃ t ∈ pt, t.name = k ∧ t.include_file = h ∧ t.is_class = true) := by
  induction pt using List.reverseRecOn with
  | nil =>
    simp [partTI]
  | append_singleton pt t ih =>
    rw [partTI_append]
    rcases hkind : t.kind with values | ⟨sz, bases, fields, ta⟩
    · have hcls : t.is_class = false := by
        unfold CppTypeData.is_class
        rw [hkind]
      rw [ih]
      constructor
      · rintro ⟨hl, t', ht', rest⟩
        exact ⟨hl, t', List.mem_append_left _ ht', rest⟩
      · rintro ⟨hl, t', ht', h1, h2, h3⟩
        rcases List.mem_append.mp ht' with hin | hin
        · exact ⟨hl, t', hin, h1, h2, h3⟩
        · rw [List.mem_singleton] at hin
          subst hin
          rw [hcls] at h3
          cases h3
    · have hcls : t.is_class = true := by
        unfold CppTypeData.is_class
        rw [hkind]
      rcases hlk : tiLookup dTI t.name with _ | ins
      · rw [ih]
        constructor
        · rintro ⟨hl, t', ht', rest⟩
          exact ⟨hl, t', List.mem_append_left _ ht', rest⟩
        · rintro ⟨hl, t', ht', h1, h2, h3⟩
          rcases List.mem_append.mp ht' with hin | hin
          · exact ⟨hl, t', hin, h1, h2, h3⟩
          · rw [List.mem_singleton] at hin
            subst hin
            rw [← h1] at hl
            rw [hlk] at hl
            cases hl
      · show (k, v) ∈ (if (t.include_file == h) = true then
          tiInsertEntry t.name ins (partTI dTI pt h) else partTI dTI pt h) ↔ _
        by_cases hik : t.include_file = h
        · rw [if_pos (beq_iff_eq.mpr hik), tiInsertEntry_mem, ih]
          constructor
          · rintro (⟨hk1, hv1⟩ | ⟨⟨hl, t', ht', rest⟩, hne⟩)
            · refine ⟨?_, t, List.mem_append_right _ (List.mem_singleton_self t),
                hk1.symm, hik, hcls⟩
              rw [hk1, hv1]
              exact hlk
            · exact ⟨hl, t', List.mem_append_left _ ht', rest⟩
          · rintro ⟨hl, t', ht', h1, h2, h3⟩
            rcases List.mem_append.mp ht' with hin | hin
            · by_cases hkt : k = t.name
              · rw [hkt, hlk] at hl
                exact Or.inl ⟨hkt, (Option.some.inj hl).symm⟩
              · exact Or.inr ⟨⟨hl, t', hin, h1, h2, h3⟩, hkt⟩
            · rw [List.mem_singleton] at hin
              subst hin
              rw [← h1, hlk] at hl
              exact Or.inl ⟨h1.symm, (Option.some.inj hl).symm⟩
        · rw [if_neg (fun hc => hik (beq_iff_eq.mp hc)), ih]
          constructor
          · rintro ⟨hl, t', ht', rest⟩
            exact ⟨hl, t', List.mem_append_left _ ht', rest⟩
          · rintro ⟨hl, t', ht', h1, h2, h3⟩
            rcases List.mem_append.mp ht' with hin | hin
            · exact ⟨hl, t', hin, h1, h2, h3⟩
            · rw [List.mem_singleton] at hin
              subst hin
              exact absurd h2 hik

end Ritual

namespace Ritual

/-- Full characterization of `split_by_headers` (cpp_data.rs:210-233): distinct
partition keys; each partition holds exactly the methods and types of its
header, plus the instantiation entries of its class-kind types. -/
theorem split_by_headers_char (d : CppData) :
    (splitKeys d.split_by_headers).Nodup ∧
    (∀ h, (splitLookup d.split_by_headers h).methods =
      d.methods.filter (fun m => m.include_file == h)) ∧
    (∀ h, (splitLookup d.split_by_headers h).types =
      d.types.filter (fun t => t.include_file == h)) ∧
    (∀ h, (splitLookup d.split_by_headers h).template_instantiations =
      partTI d.template_instantiations d.types h) := by
  have h1 := split_fold1_char d.methods [] []
    (by simp [splitKeys]) (fun h => rfl) (fun h => rfl) (fun h => rfl)
  have h2 := split_fold2_char d.template_instantiations
    (fun h => d.methods.filter (fun m => m.include_file == h)) d.types
    (d.methods.foldl (fun r m =>
      mapUpdate (ensureKey r m.include_file) m.include_file
        (fun c => { c with methods := c.methods ++ [m] })) []) []
    h1.1
    (fun h => by rw [h1.2.1 h]; simp)
    (fun h => by rw [h1.2.2.1 h]; rfl)
    (fun h => by rw [h1.2.2.2 h]; rfl)
  refine ⟨h2.1, fun h => h2.2.1 h, fun h => ?_, fun h => ?_⟩
  · have := h2.2.2.1 h
    rw [List.nil_append] at this
    exact this
  · have := h2.2.2.2 h
    rw [List.nil_append] at this
    exact this

theorem method_include_mem_keys (d : CppData) {m : CppMethod} (hm : m ∈ d.methods) :
    m.include_file ∈ splitKeys d.split_by_headers := by
  by_contra hk
  have hchar := split_by_headers_char d
  have h0 := splitLookup_not_mem hk
  have hme := hchar.2.1 m.include_file
  rw [h0] at hme
  have hmem : m ∈ List.filter (fun mm => mm.include_file == m.include_file) d.methods :=
    List.mem_filter.mpr ⟨hm, beq_iff_eq.mpr rfl⟩
  rw [← hme] at hmem
  cases hmem

theorem type_include_mem_keys (d : CppData) {t : CppTypeData} (ht : t ∈ d.types) :
    t.include_file ∈ splitKeys d.split_by_headers := by
  by_contra hk
  have hchar := split_by_headers_char d
  have h0 := splitLookup_not_mem hk
  have hte := hchar.2.2.1 t.include_file
  rw [h0] at hte
  have hmem : t ∈ List.filter (fun tt => tt.include_file == t.include_file) d.types :=
    List.mem_filter.mpr ⟨ht, beq_iff_eq.mpr rfl⟩
  rw [← hte] at hmem
  cases hmem

theorem union_methods_perm (d : CppData) :
    (d.split_by_headers.flatMap (fun p => p.2.methods)).Perm d.methods := by
  have hchar := split_by_headers_char d
  rw [List.perm_iff_count]
  intro m
  have hF : ∀ p ∈ d.split_by_headers,
      (fun p : String × CppData => p.2.methods) p =
        d.methods.filter (fun mm => mm.include_file == p.1) := by
    intro p hp
    have := splitLookup_of_mem hchar.1 hp
    show p.2.methods = _
    rw [← this]
    exact hchar.2.1 p.1
  rw [count_union_filter (fun mm => mm.include_file) d.methods d.split_by_headers
    (fun p => p.2.methods) hchar.1 hF m]
  by_cases hk : m.include_file ∈ splitKeys d.split_by_headers
  · rw [if_pos hk]
  · rw [if_neg hk]
    by_cases hm : m ∈ d.methods
    · exact absurd (method_include_mem_keys d hm) hk
    · exact (List.count_eq_zero.mpr hm).symm

theorem union_types_perm (d : CppData) :
    (d.split_by_headers.flatMap (fun p => p.2.types)).Perm d.types := by
  have hchar := split_by_headers_char d
  rw [List.perm_iff_count]
  intro t
  have hF : ∀ p ∈ d.split_by_headers,
      (fun p : String × CppData => p.2.types) p =
        d.types.filter (fun tt => tt.include_file == p.1) := by
    intro p hp
    have := splitLookup_of_mem hchar.1 hp
    show p.2.types = _
    rw [← this]
    exact hchar.2.2.1 p.1
  rw [count_union_filter (fun tt => tt.include_file) d.types d.split_by_headers
    (fun p => p.2.types) hchar.1 hF t]
  by_cases hk : t.include_file ∈ splitKeys d.split_by_headers
  · rw [if_pos hk]
  · rw [if_neg hk]
    by_cases ht : t ∈ d.types
    · exact absurd (type_include_mem_keys d ht) hk
    · exact (List.count_eq_zero.mpr ht).symm

end Ritual

namespace Ritual

/-- Witness model for the header split: one class template `V` in `v.h` with a
recorded instantiation, and one free function in `v.h`. -/
def c8Wit : CppData :=
  { types := [exClassV], methods := [exMethodMixed]
    template_instantiations := [("V", [[exIntT, exIntT]])] }

/-- C8 (amended): `split_by_headers` partitions methods and types by
`include_file` — partition keys are distinct, each partition's method and type
lists are exactly the input's entities of that header (so every entity lies in
exactly the partition keyed by its own `include_file` and in no other), and the
unions over all partitions are permutations of the input lists; a class-kind
type's recorded template instantiations are retrievable in that class's
partition.  The union of the partitions' instantiation maps, however, recovers
exactly those input entries whose key names a class-kind type of the model: an
entry keyed by a name declaring no class-kind type is dropped, so the
union-equals-input half of the original claim fails for
`template_instantiations` (see the counterexample). -/
theorem c8_split_partition (d : CppData)
    (hTI : (tiKeys d.template_instantiations).Nodup) :
    (splitKeys d.split_by_headers).Nodup ∧
    (∀ p ∈ d.split_by_headers, ∀ m : CppMethod,
      m ∈ p.2.methods ↔ m ∈ d.methods ∧ m.include_file = p.1) ∧
    (∀ p ∈ d.split_by_headers, ∀ t : CppTypeData,
      t ∈ p.2.types ↔ t ∈ d.types ∧ t.include_file = p.1) ∧
    (d.split_by_headers.flatMap (fun p => p.2.methods)).Perm d.methods ∧
    (d.split_by_headers.flatMap (fun p => p.2.types)).Perm d.types ∧
    (∀ t ∈ d.types, t.is_class = true →
      ∀ ins, tiLookup d.template_instantiations t.name = some ins →
        tiLookup (splitLookup d.split_by_headers t.include_file).template_instantiations
          t.name = some ins) ∧
    (∀ k v, (k, v) ∈ d.split_by_headers.flatMap (fun p => p.2.template_instantiations) ↔
      ((k, v) ∈ d.template_instantiations ∧
        ∃ t ∈ d.types, t.name = k ∧ t.is_class = true)) := by
  have hchar := split_by_headers_char d
  refine ⟨hchar.1, ?_, ?_, union_methods_perm d, union_types_perm d, ?_, ?_⟩
  · intro p hp m
    have he := splitLookup_of_mem hchar.1 hp
    constructor
    · intro hmem
      rw [← he, hchar.2.1 p.1] at hmem
      rw [List.mem_filter] at hmem
      exact ⟨hmem.1, beq_iff_eq.mp hmem.2⟩
    · rintro ⟨hmm, hif⟩
      rw [← he, hchar.2.1 p.1]
      exact List.mem_filter.mpr ⟨hmm, beq_iff_eq.mpr hif⟩
  · intro p hp t
    have he := splitLookup_of_mem hchar.1 hp
    constructor
    · intro hmem
      rw [← he, hchar.2.2.1 p.1] at hmem
      rw [List.mem_filter] at hmem
      exact ⟨hmem.1, beq_iff_eq.mp hmem.2⟩
    · rintro ⟨htt, hif⟩
      rw [← he, hchar.2.2.1 p.1]
      exact List.mem_filter.mpr ⟨htt, beq_iff_eq.mpr hif⟩
  · intro t ht hcls ins hlk
    rw [hchar.2.2.2 t.include_file]
    apply tiLookup_of_mem (partTI_keys_nodup _ _ _)
    rw [partTI_mem]
    exact ⟨hlk, t, ht, rfl, rfl, hcls⟩
  · intro k v
    rw [List.mem_flatMap]
    constructor
    · rintro ⟨p, hp, hmem⟩
      have hmem2 : (k, v) ∈ p.2.template_instantiations := hmem
      have he := splitLookup_of_mem hchar.1 hp
      rw [← he, hchar.2.2.2 p.1, partTI_mem] at hmem2
      obtain ⟨hl, t, ht, h1, _, h3⟩ := hmem2
      exact ⟨tiLookup_eq_some_mem hl, t, ht, h1, h3⟩
    · rintro ⟨hmem, t, ht, h1, h3⟩
      have hl := tiLookup_of_mem hTI hmem
      have hkey := type_include_mem_keys d ht
      refine ⟨(t.include_file, splitLookup d.split_by_headers t.include_file),
        mem_of_key_split hchar.1 hkey, ?_⟩
      show (k, v) ∈ (splitLookup d.split_by_headers t.include_file).template_instantiations
      rw [hchar.2.2.2 t.include_file, partTI_mem]
      exact ⟨hl, t, ht, h1, rfl, h3⟩

/-- C8 counterexample: an instantiation entry keyed by a name that no type of
the model declares (possible since the instantiation map is keyed
independently of the type list) appears in no partition of `split_by_headers`,
so the union over all partitions does not reconstruct the input's
`template_instantiations`. -/
theorem c8_counterexample :
    ((CppData.mk [] [] [("X", [[exIntT]])]).split_by_headers.flatMap
        (fun p => p.2.template_instantiations)) ≠
      (CppData.mk [] [] [("X", [[exIntT]])]).template_instantiations := by
  decide

/-- C8 witness: the amended theorem applied to the concrete one-header model. -/
theorem c8_split_partition_witness :
    (tiKeys c8Wit.template_instantiations).Nodup ∧
    (c8Wit.split_by_headers.flatMap (fun p => p.2.methods)).Perm c8Wit.methods ∧
    (c8Wit.split_by_headers.flatMap (fun p => p.2.types)).Perm c8Wit.types :=
  ⟨by decide, (c8_split_partition c8Wit (by decide)).2.2.2.1,
    (c8_split_partition c8Wit (by decide)).2.2.2.2.1⟩

end Ritual
